import Mathlib

/-!
Verification development for the xds resolver core
(`src/core/ext/filters/client_channel/resolver/xds/xds_resolver.cc`).

The C++ code stores its action-name cache in nested `std::map`s keyed by
strings.  We embed each `std::map<std::string, V>` as an association list
`List (String × V)` kept sorted by key in strictly increasing order: this
matches `std::map`'s iteration order (lexicographically sorted, unique
keys), its `begin()` (head of the list) and its `find` / `operator[]` /
`erase` operations, which are modelled below.
-/

set_option maxRecDepth 16384

namespace XdsResolver

/-- `std::map::find`, returning the mapped value. -/
def mapFind {α : Type} : List (String × α) → String → Option α
  | [], _ => none
  | (k', v) :: t, k => if k = k' then some v else mapFind t k

/-- Lexicographic comparison of character lists by code point; `std::string`'s
`operator<` compares bytes, which for UTF-8 agrees with code-point order. -/
def charListLt : List Char → List Char → Bool
  | _, [] => false
  | [], _ :: _ => true
  | a :: as, b :: bs =>
    if a.toNat < b.toNat then true
    else if b.toNat < a.toNat then false
    else charListLt as bs

/-- `std::string` `operator<`: lexicographic on the characters. -/
def strLt (a b : String) : Bool := charListLt a.data b.data

theorem char_toNat_inj (a b : Char) (h : a.toNat = b.toNat) : a = b :=
  Char.eq_of_val_eq (UInt32.toNat.inj h)

theorem charListLt_irrefl (l : List Char) : charListLt l l = false := by
  induction l with
  | nil => rfl
  | cons a as ih => simp [charListLt, ih]

theorem charListLt_trans (a b c : List Char) (hab : charListLt a b = true)
    (hbc : charListLt b c = true) : charListLt a c = true := by
  induction a generalizing b c with
  | nil =>
    cases c with
    | nil =>
      cases b with
      | nil => exact hab
      | cons b0 bs => simp [charListLt] at hbc
    | cons c0 cs => rfl
  | cons a0 as ih =>
    cases b with
    | nil => simp [charListLt] at hab
    | cons b0 bs =>
      cases c with
      | nil => simp [charListLt] at hbc
      | cons c0 cs =>
        simp only [charListLt] at hab hbc ⊢
        by_cases h1 : a0.toNat < b0.toNat
        · by_cases h2 : b0.toNat < c0.toNat
          · rw [if_pos (by omega)]
          · rw [if_neg h2] at hbc
            by_cases h3 : c0.toNat < b0.toNat
            · rw [if_pos h3] at hbc; exact absurd hbc (by simp)
            · rw [if_pos (by omega)]
        · rw [if_neg h1] at hab
          by_cases h4 : b0.toNat < a0.toNat
          · rw [if_pos h4] at hab; exact absurd hab (by simp)
          · rw [if_neg h4] at hab
            by_cases h2 : b0.toNat < c0.toNat
            · rw [if_pos (by omega)]
            · rw [if_neg h2] at hbc
              by_cases h3 : c0.toNat < b0.toNat
              · rw [if_pos h3] at hbc; exact absurd hbc (by simp)
              · rw [if_neg h3] at hbc
                rw [if_neg (by omega), if_neg (by omega)]
                exact ih bs cs hab hbc

theorem charListLt_of_ne_of_not (a b : List Char) (hne : a ≠ b)
    (hnot : charListLt a b = false) : charListLt b a = true := by
  induction a generalizing b with
  | nil =>
    cases b with
    | nil => exact absurd rfl hne
    | cons b0 bs => simp [charListLt] at hnot
  | cons a0 as ih =>
    cases b with
    | nil => rfl
    | cons b0 bs =>
      simp only [charListLt] at hnot ⊢
      by_cases h1 : a0.toNat < b0.toNat
      · rw [if_pos h1] at hnot; exact absurd hnot (by simp)
      · rw [if_neg h1] at hnot
        by_cases h2 : b0.toNat < a0.toNat
        · rw [if_pos h2]
        · rw [if_neg h2] at hnot
          have heq : a0 = b0 := char_toNat_inj a0 b0 (by omega)
          subst heq
          rw [if_neg h1, if_neg h2]
          refine ih bs ?_ hnot
          intro he
          exact hne (by rw [he])

theorem strLt_irrefl (a : String) : strLt a a = false := charListLt_irrefl a.data

theorem strLt_trans (a b c : String) (hab : strLt a b = true)
    (hbc : strLt b c = true) : strLt a c = true :=
  charListLt_trans a.data b.data c.data hab hbc

theorem strLt_ne (a b : String) (h : strLt a b = true) : a ≠ b := by
  intro he
  rw [he, strLt_irrefl] at h
  exact absurd h (by simp)

theorem strLt_of_ne_of_not (a b : String) (hne : a ≠ b)
    (hnot : strLt a b = false) : strLt b a = true := by
  refine charListLt_of_ne_of_not a.data b.data ?_ hnot
  intro he
  apply hne
  cases a with
  | mk da =>
    cases b with
    | mk db => exact congrArg String.mk he

/-- `std::map` insertion (`operator[] = v` / settled insertion): replaces the
value at an existing key, otherwise inserts at the sorted position. -/
def mapInsert {α : Type} : List (String × α) → String → α → List (String × α)
  | [], k, v => [(k, v)]
  | (k', v') :: t, k, v =>
    if k = k' then (k, v) :: t
    else if strLt k k' then (k, v) :: (k', v') :: t
    else (k', v') :: mapInsert t k v

/-- `std::map::erase` of a key. -/
def mapErase {α : Type} : List (String × α) → String → List (String × α)
  | [], _ => []
  | (k', v') :: t, k => if k = k' then t else (k', v') :: mapErase t k

/-- Ordering of map entries by key; `std::map` keeps entries sorted this way. -/
def keyLt {α : Type} (a b : String × α) : Prop := strLt a.1 b.1 = true

/-- The representation invariant of an embedded `std::map`: entries are
strictly sorted by key. -/
def SortedMap {α : Type} (l : List (String × α)) : Prop := l.Pairwise keyLt

theorem sortedMap_nil {α : Type} : SortedMap ([] : List (String × α)) := List.Pairwise.nil

theorem mapFind_insert {α : Type} (l : List (String × α)) (k : String) (v : α) (k' : String) :
    mapFind (mapInsert l k v) k' = if k' = k then some v else mapFind l k' := by
  induction l with
  | nil => by_cases h : k' = k <;> simp [mapInsert, mapFind, h]
  | cons p t ih =>
    obtain ⟨k0, v0⟩ := p
    by_cases h0 : k = k0
    · subst h0
      by_cases h : k' = k <;> simp [mapInsert, mapFind, h]
    · by_cases hlt : strLt k k0 = true
      · by_cases h : k' = k
        · simp [mapInsert, mapFind, h0, hlt, h]
        · simp only [mapInsert, if_neg h0, if_pos hlt, mapFind, if_neg h]
      · by_cases h : k' = k
        · subst h
          simp [mapInsert, h0, hlt, mapFind, Ne.symm h0, ih]
        · by_cases h2 : k' = k0 <;>
            simp [mapInsert, h0, hlt, mapFind, h, h2, ih, Ne.symm h0]

theorem mapFind_erase_ne {α : Type} (l : List (String × α)) (k k' : String) (h : k' ≠ k) :
    mapFind (mapErase l k) k' = mapFind l k' := by
  induction l with
  | nil => simp [mapErase]
  | cons p t ih =>
    obtain ⟨k0, v0⟩ := p
    by_cases h0 : k = k0
    · subst h0
      simp [mapErase, mapFind, h]
    · by_cases h2 : k' = k0 <;> simp [mapErase, h0, mapFind, h2, ih]

theorem mapFind_none_of_forall_ne {α : Type} (l : List (String × α)) (k : String)
    (h : ∀ p ∈ l, p.1 ≠ k) : mapFind l k = none := by
  induction l with
  | nil => rfl
  | cons p t ih =>
    obtain ⟨k0, v0⟩ := p
    have hk : k ≠ k0 := fun he => (h (k0, v0) (List.mem_cons_self _ _)) he.symm
    simp only [mapFind, if_neg hk]
    exact ih (fun p hp => h p (List.mem_cons_of_mem _ hp))

theorem mapFind_erase_self {α : Type} (l : List (String × α)) (k : String)
    (hs : SortedMap l) : mapFind (mapErase l k) k = none := by
  induction l with
  | nil => rfl
  | cons p t ih =>
    obtain ⟨k0, v0⟩ := p
    simp only [SortedMap, List.pairwise_cons] at hs
    by_cases h0 : k = k0
    · subst h0
      simp only [mapErase, if_pos rfl]
      exact mapFind_none_of_forall_ne t k (fun p hp => (strLt_ne _ _ (hs.1 p hp)).symm)
    · simp only [mapErase, if_neg h0, mapFind, if_neg h0]
      exact ih hs.2

theorem mapErase_sublist {α : Type} (l : List (String × α)) (k : String) :
    (mapErase l k).Sublist l := by
  induction l with
  | nil => simp [mapErase]
  | cons p t ih =>
    obtain ⟨k0, v0⟩ := p
    by_cases h0 : k = k0
    · simp only [mapErase, if_pos h0]
      exact List.sublist_cons_self _ _
    · simp only [mapErase, if_neg h0]
      exact ih.cons₂ _

theorem sortedMap_erase {α : Type} (l : List (String × α)) (k : String)
    (hs : SortedMap l) : SortedMap (mapErase l k) :=
  hs.sublist (mapErase_sublist l k)

theorem sortedMap_tail {α : Type} (p : String × α) (t : List (String × α))
    (hs : SortedMap (p :: t)) : SortedMap t := (List.pairwise_cons.mp hs).2

theorem mem_mapInsert {α : Type} (l : List (String × α)) (k : String) (v : α)
    (p : String × α) (hp : p ∈ mapInsert l k v) : p = (k, v) ∨ p ∈ l := by
  induction l with
  | nil => simpa [mapInsert] using hp
  | cons q t ih =>
    obtain ⟨k1, v1⟩ := q
    by_cases h1 : k = k1
    · subst h1
      simp only [mapInsert, if_pos rfl] at hp
      rcases List.mem_cons.mp hp with he | hm
      · exact Or.inl he
      · exact Or.inr (List.mem_cons.mpr (Or.inr hm))
    · by_cases h2 : strLt k k1 = true
      · simp only [mapInsert, if_neg h1, if_pos h2] at hp
        rcases List.mem_cons.mp hp with he | hm
        · exact Or.inl he
        · exact Or.inr hm
      · simp only [mapInsert, if_neg h1, if_neg h2] at hp
        rcases List.mem_cons.mp hp with he | hm
        · exact Or.inr (List.mem_cons.mpr (Or.inl he))
        · rcases ih hm with he2 | hm2
          · exact Or.inl he2
          · exact Or.inr (List.mem_cons.mpr (Or.inr hm2))

theorem sortedMap_insert {α : Type} (l : List (String × α)) (k : String) (v : α)
    (hs : SortedMap l) : SortedMap (mapInsert l k v) := by
  induction l with
  | nil => simp [mapInsert, SortedMap, keyLt]
  | cons p t ih =>
    obtain ⟨k0, v0⟩ := p
    rw [SortedMap, List.pairwise_cons] at hs
    by_cases h0 : k = k0
    · subst h0
      simp only [mapInsert, if_pos rfl]
      exact List.pairwise_cons.mpr ⟨fun p hp => hs.1 p hp, hs.2⟩
    · by_cases hlt : strLt k k0 = true
      · simp only [mapInsert, if_neg h0, if_pos hlt]
        refine List.pairwise_cons.mpr ⟨?_, List.pairwise_cons.mpr ⟨hs.1, hs.2⟩⟩
        intro p hp
        rcases List.mem_cons.mp hp with he | hm
        · subst he; exact hlt
        · exact strLt_trans _ _ _ hlt (hs.1 p hm)
      · have hgt : strLt k0 k = true :=
          strLt_of_ne_of_not k k0 h0 (by simpa using hlt)
        simp only [mapInsert, if_neg h0, if_neg hlt]
        refine List.pairwise_cons.mpr ⟨?_, ih hs.2⟩
        intro p hp
        rcases mem_mapInsert t k v p hp with he | hm
        · subst he; exact hgt
        · exact hs.1 p hm

/-- `XdsApi::RdsUpdate::RdsRoute::ClusterWeight`: one weighted-cluster entry. -/
structure ClusterWeight where
  name : String
  weight : Nat
deriving DecidableEq

/-- `XdsApi::RdsUpdate::RdsRoute::Matchers::PathMatcher::PathMatcherType`. -/
inductive PathMatcherType where
  | PREFIX_K : PathMatcherType
  | PATH : PathMatcherType
  | REGEX : PathMatcherType
deriving DecidableEq

/-- `PathMatcher`: the matcher enum lives in the external xds_api header; the
fields used by this translation unit are the type tag, the string matcher and
the regex pattern (`regex_matcher->pattern()`). -/
structure PathMatcher where
  type : PathMatcherType
  string_matcher : String
  regex_pattern : String
deriving DecidableEq

/-- `HeaderMatcher::HeaderMatcherType`.  The C++ enum can carry values outside
its named enumerators; `UNKNOWN` stands for any such unrecognized tag value,
which the compiler's `switch` sends to its `default: break;` branch. -/
inductive HeaderMatcherType where
  | EXACT : HeaderMatcherType
  | REGEX : HeaderMatcherType
  | RANGE : HeaderMatcherType
  | PRESENT : HeaderMatcherType
  | PREFIX_K : HeaderMatcherType
  | SUFFIX : HeaderMatcherType
  | UNKNOWN : HeaderMatcherType
deriving DecidableEq

/-- `Matchers::HeaderMatcher`, with the fields the compiler reads. -/
structure HeaderMatcher where
  name : String
  type : HeaderMatcherType
  string_matcher : String
  regex_pattern : String
  range_start : Int
  range_end : Int
  present_match : Bool
  invert_match : Bool
deriving DecidableEq

/-- `RdsRoute::Matchers`. -/
structure Matchers where
  path_matcher : PathMatcher
  header_matchers : List HeaderMatcher
  fraction_per_million : Option Nat
deriving DecidableEq

/-- `XdsApi::RdsUpdate::RdsRoute`: a non-empty `weighted_clusters` means a
weighted-cluster action, otherwise the route targets `cluster_name`. -/
structure RdsRoute where
  matchers : Matchers
  cluster_name : String
  weighted_clusters : List ClusterWeight
deriving DecidableEq

/-- `ClusterNamesInfo`: one bucket of the 2-level WeightedCluster action-name
map (`next_index` plus the `cluster_weights_map` keyed by names+weights). -/
structure ClusterNamesInfo where
  next_index : Nat
  cluster_weights_map : List (String × Nat)
deriving DecidableEq

/-- `WeightedClusterIndexMap`: top level map keyed by cluster names. -/
abbrev WeightedClusterIndexMap := List (String × ClusterNamesInfo)

/-- `std::set<std::string>` insertion: dedups and keeps sorted order. -/
def setInsert : List String → String → List String
  | [], s => [s]
  | x :: t, s =>
    if s = x then x :: t
    else if strLt s x then s :: x :: t
    else x :: setInsert t s

/-- Collect a `std::set<std::string>` from insertions in iteration order. -/
def stringSetOf (l : List String) : List String := l.foldl setInsert []

/-- `WeightedClustersKeys`. -/
structure WeightedClustersKeys where
  cluster_names_key : String
  cluster_weights_key : String
deriving DecidableEq

/-- `GetWeightedClustersKey`: sorted-unique cluster names joined by `_`, and
sorted-unique `name_weight` strings joined by `_`. -/
def GetWeightedClustersKey (weighted_clusters : List ClusterWeight) : WeightedClustersKeys :=
  let cluster_names := stringSetOf (weighted_clusters.map (fun cw => cw.name))
  let cluster_weights :=
    stringSetOf (weighted_clusters.map (fun cw => cw.name ++ "_" ++ toString cw.weight))
  { cluster_names_key := String.intercalate "_" cluster_names,
    cluster_weights_key := String.intercalate "_" cluster_weights }

/-- `XdsResolver::WeightedClustersActionName`.  The two `GPR_ASSERT`ed map
lookups are modelled by returning `none` when they fail (in C++ a failed
assert aborts the process). -/
def WeightedClustersActionName (m : WeightedClusterIndexMap)
    (weighted_clusters : List ClusterWeight) : Option String :=
  let keys := GetWeightedClustersKey weighted_clusters
  match mapFind m keys.cluster_names_key with
  | none => none
  | some info =>
    match mapFind info.cluster_weights_map keys.cluster_weights_key with
    | none => none
    | some idx => some (keys.cluster_names_key ++ "_" ++ toString idx)

/-- The `actions_to_process` map of `UpdateWeightedClusterIndexMap`: unique
WeightedCluster actions, keyed by `cluster_weights_key`, mapping to their
`cluster_names_key`; first occurrence wins. -/
def actionsToProcess (routes : List RdsRoute) : List (String × String) :=
  routes.foldl
    (fun acc route =>
      if route.weighted_clusters.isEmpty then acc
      else
        let keys := GetWeightedClustersKey route.weighted_clusters
        match mapFind acc keys.cluster_weights_key with
        | some _ => acc
        | none => mapInsert acc keys.cluster_weights_key keys.cluster_names_key)
    []

/-- State of the first pass of `UpdateWeightedClusterIndexMap`: the fresh map
being built, the old map (whose settled entries get erased), and the actions
not yet settled (the loop erases settled ones from `actions_to_process`;
since it runs in sorted order, the survivors are kept here in order). -/
structure Pass1State where
  newMap : WeightedClusterIndexMap
  oldMap : WeightedClusterIndexMap
  remaining : List (String × String)

/-- One iteration of the first (exact-match) pass: if the old map has a bucket
for the action's `cluster_names_key`, create/refresh the new bucket with the
old `next_index` (`operator[]` then assignment), and if the exact
`cluster_weights_key` is present in the old bucket, move its index over,
erase it from the old bucket, and drop the action from the work list. -/
def pass1Step (st : Pass1State) (action : String × String) : Pass1State :=
  let cluster_weights_key := action.1
  let cluster_names_key := action.2
  match mapFind st.oldMap cluster_names_key with
  | none => { st with remaining := st.remaining ++ [action] }
  | some oldInfo =>
    let baseInfo := (mapFind st.newMap cluster_names_key).getD ⟨0, []⟩
    match mapFind oldInfo.cluster_weights_map cluster_weights_key with
    | some idx =>
      { newMap := mapInsert st.newMap cluster_names_key
          ⟨oldInfo.next_index, mapInsert baseInfo.cluster_weights_map cluster_weights_key idx⟩,
        oldMap := mapInsert st.oldMap cluster_names_key
          ⟨oldInfo.next_index, mapErase oldInfo.cluster_weights_map cluster_weights_key⟩,
        remaining := st.remaining }
    | none =>
      { newMap := mapInsert st.newMap cluster_names_key
          ⟨oldInfo.next_index, baseInfo.cluster_weights_map⟩,
        oldMap := st.oldMap,
        remaining := st.remaining ++ [action] }

/-- One iteration of the second (reuse) pass over the remaining actions:
`operator[]` on both maps, then reuse the first (= lexicographically
smallest) leftover entry of the old bucket if any, erasing it there;
otherwise allocate `next_index` and increment it. -/
def pass2Step (s : WeightedClusterIndexMap × WeightedClusterIndexMap)
    (action : String × String) : WeightedClusterIndexMap × WeightedClusterIndexMap :=
  let cluster_weights_key := action.1
  let cluster_names_key := action.2
  let newInfo := (mapFind s.1 cluster_names_key).getD ⟨0, []⟩
  let oldInfo := (mapFind s.2 cluster_names_key).getD ⟨0, []⟩
  match oldInfo.cluster_weights_map with
  | (_, idx0) :: rest =>
    (mapInsert s.1 cluster_names_key
       ⟨newInfo.next_index, mapInsert newInfo.cluster_weights_map cluster_weights_key idx0⟩,
     mapInsert s.2 cluster_names_key ⟨oldInfo.next_index, rest⟩)
  | [] =>
    (mapInsert s.1 cluster_names_key
       ⟨newInfo.next_index + 1,
        mapInsert newInfo.cluster_weights_map cluster_weights_key newInfo.next_index⟩,
     mapInsert s.2 cluster_names_key oldInfo)

/-- `XdsResolver::UpdateWeightedClusterIndexMap`: build `actions_to_process`,
run the exact-match pass, then the reuse pass, and swap in the new map. -/
def UpdateWeightedClusterIndexMap (m : WeightedClusterIndexMap)
    (routes : List RdsRoute) : WeightedClusterIndexMap :=
  let actions_to_process := actionsToProcess routes
  let st1 := actions_to_process.foldl pass1Step ⟨[], m, []⟩
  (st1.remaining.foldl pass2Step (st1.newMap, st1.oldMap)).1

/-- Two-level lookup: the index stored for `(cluster_names_key N,
cluster_weights_key w)`, if any. -/
def lookup2 (m : WeightedClusterIndexMap) (N w : String) : Option Nat :=
  match mapFind m N with
  | none => none
  | some info => mapFind info.cluster_weights_map w

/-- The multiset of policy indices stored in one bucket. -/
def valsOf (info : ClusterNamesInfo) : Multiset Nat :=
  (info.cluster_weights_map.map Prod.snd : List Nat)

/-- The multiset of policy indices stored in the bucket for `N` (empty if the
bucket is absent). -/
def bucketVals (m : WeightedClusterIndexMap) (N : String) : Multiset Nat :=
  match mapFind m N with
  | none => 0
  | some info => valsOf info

/-- The bucket's `next_index`, defaulting to the `uint64_t` zero-initialised
value an absent bucket would start with. -/
def bucketNextD (m : WeightedClusterIndexMap) (N : String) : Nat :=
  match mapFind m N with
  | none => 0
  | some info => info.next_index

/-- Well-formedness of an embedded two-level map: both levels sorted. -/
def WF (m : WeightedClusterIndexMap) : Prop :=
  SortedMap m ∧ ∀ N info, mapFind m N = some info → SortedMap info.cluster_weights_map

/-- Full `std::map` invariant plus the allocator's semantic invariant: inside
each bucket the stored indices are pairwise distinct and below `next_index`. -/
def WFTable (m : WeightedClusterIndexMap) : Prop :=
  WF m ∧ ∀ N info, mapFind m N = some info →
    (valsOf info).Nodup ∧ ∀ v ∈ valsOf info, v < info.next_index

theorem lookup2_mapInsert (m : WeightedClusterIndexMap) (N : String)
    (info : ClusterNamesInfo) (N' w : String) :
    lookup2 (mapInsert m N info) N' w =
      if N' = N then mapFind info.cluster_weights_map w else lookup2 m N' w := by
  by_cases h : N' = N <;> simp [lookup2, mapFind_insert, h]

theorem bucketVals_mapInsert (m : WeightedClusterIndexMap) (N : String)
    (info : ClusterNamesInfo) (N' : String) :
    bucketVals (mapInsert m N info) N' =
      if N' = N then valsOf info else bucketVals m N' := by
  by_cases h : N' = N <;> simp [bucketVals, mapFind_insert, h]

theorem bucketNextD_mapInsert (m : WeightedClusterIndexMap) (N : String)
    (info : ClusterNamesInfo) (N' : String) :
    bucketNextD (mapInsert m N info) N' =
      if N' = N then info.next_index else bucketNextD m N' := by
  by_cases h : N' = N <;> simp [bucketNextD, mapFind_insert, h]

theorem mapFind_getD_eq_lookup2 (m : WeightedClusterIndexMap) (N w : String) :
    mapFind ((mapFind m N).getD ⟨0, []⟩).cluster_weights_map w = lookup2 m N w := by
  cases h : mapFind m N <;> simp [lookup2, h, mapFind]

theorem valsOf_getD (m : WeightedClusterIndexMap) (N : String) :
    valsOf ((mapFind m N).getD ⟨0, []⟩) = bucketVals m N := by
  cases h : mapFind m N <;> simp [bucketVals, valsOf, h]

theorem nextD_getD (m : WeightedClusterIndexMap) (N : String) :
    ((mapFind m N).getD ⟨0, []⟩).next_index = bucketNextD m N := by
  cases h : mapFind m N <;> simp [bucketNextD, h]

theorem map_snd_mapInsert_absent (l : List (String × Nat)) (k : String) (v : Nat)
    (h : mapFind l k = none) :
    (((mapInsert l k v).map Prod.snd : List Nat) : Multiset Nat) =
      v ::ₘ ((l.map Prod.snd : List Nat) : Multiset Nat) := by
  induction l with
  | nil => simp [mapInsert]
  | cons p t ih =>
    obtain ⟨k0, v0⟩ := p
    simp only [mapFind] at h
    by_cases h0 : k = k0
    · simp [h0] at h
    · rw [if_neg h0] at h
      by_cases hlt : strLt k k0 = true
      · simp [mapInsert, h0, hlt]
      · simp only [mapInsert, if_neg h0, if_neg hlt, List.map_cons]
        rw [← Multiset.cons_coe, ← Multiset.cons_coe, ih h, Multiset.cons_swap]

theorem map_snd_mapErase_present (l : List (String × Nat)) (k : String) (v : Nat)
    (h : mapFind l k = some v) :
    ((l.map Prod.snd : List Nat) : Multiset Nat) =
      v ::ₘ (((mapErase l k).map Prod.snd : List Nat) : Multiset Nat) := by
  induction l with
  | nil => simp [mapFind] at h
  | cons p t ih =>
    obtain ⟨k0, v0⟩ := p
    simp only [mapFind] at h
    by_cases h0 : k = k0
    · rw [if_pos h0] at h
      obtain rfl : v0 = v := by simpa using h
      simp [mapErase, h0]
    · rw [if_neg h0] at h
      simp only [mapErase, if_neg h0, List.map_cons]
      rw [← Multiset.cons_coe, ← Multiset.cons_coe, ih h, Multiset.cons_swap]

theorem cons_add_swap (a : Nat) (s t : Multiset Nat) : a ::ₘ s + t = s + a ::ₘ t := by
  rw [Multiset.cons_add, Multiset.add_cons]

theorem WF_nil : WF ([] : WeightedClusterIndexMap) := by
  constructor
  · exact sortedMap_nil
  · intro N info h
    simp [mapFind] at h

theorem WF_insert (m : WeightedClusterIndexMap) (N : String) (info : ClusterNamesInfo)
    (hm : WF m) (hi : SortedMap info.cluster_weights_map) :
    WF (mapInsert m N info) := by
  constructor
  · exact sortedMap_insert m N info hm.1
  · intro N' info' h
    rw [mapFind_insert] at h
    by_cases he : N' = N
    · rw [if_pos he] at h
      obtain rfl : info = info' := by simpa using h
      exact hi
    · rw [if_neg he] at h
      exact hm.2 N' info' h

theorem WF_bucket_sorted (m : WeightedClusterIndexMap) (N : String)
    (hm : WF m) : SortedMap ((mapFind m N).getD ⟨0, []⟩).cluster_weights_map := by
  cases h : mapFind m N with
  | none => exact sortedMap_nil
  | some info => exact hm.2 N info h

/-- Invariant of the exact-match pass after processing the prefix `P` of
`actions_to_process`, starting from old map `m`:  the new map holds exactly
the processed actions that had an exact old entry (with the old index and the
old bucket's `next_index`), the old map has lost exactly those entries, the
work list holds the processed-but-unsettled actions in order, and per bucket
the two maps' index multisets partition the old bucket's. -/
structure Inv1 (m : WeightedClusterIndexMap) (P : List (String × String))
    (st : Pass1State) : Prop where
  new_find : ∀ N w, lookup2 st.newMap N w = if (w, N) ∈ P then lookup2 m N w else none
  new_dom : ∀ a ∈ P, (mapFind m a.2).isSome = true → (mapFind st.newMap a.2).isSome = true
  new_next : ∀ N info, mapFind st.newMap N = some info →
    ∃ oinfo, mapFind m N = some oinfo ∧ info.next_index = oinfo.next_index
  old_next : ∀ N, (mapFind st.oldMap N).map (fun i => i.next_index) =
    (mapFind m N).map (fun i => i.next_index)
  old_find : ∀ N w, lookup2 st.oldMap N w = if (w, N) ∈ P then none else lookup2 m N w
  rem : st.remaining = P.filter (fun a => (lookup2 m a.2 a.1).isNone)
  vals : ∀ N, bucketVals st.newMap N + bucketVals st.oldMap N = bucketVals m N
  wf_new : WF st.newMap
  wf_old : WF st.oldMap

theorem inv1_init (m : WeightedClusterIndexMap) (hm : WF m) :
    Inv1 m [] ⟨[], m, []⟩ := by
  refine ⟨?_, ?_, ?_, ?_, ?_, ?_, ?_, WF_nil, hm⟩
  · intro N w; simp [lookup2, mapFind]
  · intro a ha; simp at ha
  · intro N info h; simp [mapFind] at h
  · intro N; rfl
  · intro N w; simp
  · rfl
  · intro N; simp [bucketVals, mapFind]

theorem inv1_step (m : WeightedClusterIndexMap) (P : List (String × String))
    (st : Pass1State) (w N : String)
    (hfresh : ∀ p ∈ P, p.1 ≠ w) (h : Inv1 m P st) :
    Inv1 m (P ++ [(w, N)]) (pass1Step st (w, N)) := by
  have hnotP : (w, N) ∉ P := fun hmem => hfresh (w, N) hmem rfl
  have hmem_iff : ∀ p : String × String, p ∈ P ++ [(w, N)] ↔ p ∈ P ∨ p = (w, N) := by
    intro p; simp
  have hmem_of : ∀ p : String × String, p ∈ P → p ∈ P ++ [(w, N)] :=
    fun p hp => (hmem_iff p).mpr (Or.inl hp)
  have hmem_self : (w, N) ∈ P ++ [(w, N)] := (hmem_iff _).mpr (Or.inr rfl)
  have hmem_out : ∀ p : String × String, p ∉ P → p ≠ (w, N) → p ∉ P ++ [(w, N)] :=
    fun p hp hne hc => ((hmem_iff p).mp hc).elim hp hne
  cases hold : mapFind st.oldMap N with
  | none =>
    have hmN : mapFind m N = none := by
      have := h.old_next N
      rw [hold] at this
      exact Option.map_eq_none'.mp this.symm
    have hl2 : ∀ w', lookup2 m N w' = none := by
      intro w'; simp [lookup2, hmN]
    simp only [pass1Step, hold]
    refine ⟨?_, ?_, h.new_next, h.old_next, ?_, ?_, h.vals, h.wf_new, h.wf_old⟩
    · intro N' w'
      rw [h.new_find]
      by_cases hp : (w', N') ∈ P
      · rw [if_pos hp, if_pos (hmem_of _ hp)]
      · rw [if_neg hp]
        by_cases ha : (w', N') = (w, N)
        · rw [ha, if_pos hmem_self]
          obtain ⟨rfl, rfl⟩ := Prod.mk.injEq .. ▸ ha
          rw [hl2]
        · rw [if_neg (hmem_out _ hp ha)]
    · intro p hp hsome
      rcases (hmem_iff p).mp hp with hmem | rfl
      · exact h.new_dom p hmem hsome
      · rw [hmN] at hsome; simp at hsome
    · intro N' w'
      rw [h.old_find]
      by_cases hp : (w', N') ∈ P
      · rw [if_pos hp, if_pos (hmem_of _ hp)]
      · rw [if_neg hp]
        by_cases ha : (w', N') = (w, N)
        · rw [if_pos (ha ▸ hmem_self)]
          obtain ⟨rfl, rfl⟩ := Prod.mk.injEq .. ▸ ha
          rw [hl2]
        · rw [if_neg (hmem_out _ hp ha)]
    · show st.remaining ++ [(w, N)] = _
      rw [h.rem, List.filter_append]
      have hpa : (lookup2 m N w).isNone = true := by rw [hl2]; rfl
      simp [hpa]
  | some oldInfo =>
    obtain ⟨minfo, hmN, hnext⟩ : ∃ minfo, mapFind m N = some minfo ∧
        oldInfo.next_index = minfo.next_index := by
      have := h.old_next N
      rw [hold] at this
      cases hmm : mapFind m N with
      | none => rw [hmm] at this; simp at this
      | some minfo =>
        rw [hmm] at this; simp at this
        exact ⟨minfo, rfl, this⟩
    have hsortedOld : SortedMap oldInfo.cluster_weights_map := h.wf_old.2 N oldInfo hold
    have hbase : ∀ w', mapFind ((mapFind st.newMap N).getD ⟨0, []⟩).cluster_weights_map w' =
        lookup2 st.newMap N w' := fun w' => mapFind_getD_eq_lookup2 st.newMap N w'
    have holdl2 : ∀ w', lookup2 st.oldMap N w' = mapFind oldInfo.cluster_weights_map w' := by
      intro w'; simp [lookup2, hold]
    cases hfind : mapFind oldInfo.cluster_weights_map w with
    | some idx =>
      have hmNw : lookup2 m N w = some idx := by
        have := h.old_find N w
        rw [if_neg hnotP] at this
        rw [← this, holdl2, hfind]
      have hnewabs : lookup2 st.newMap N w = none := by
        rw [h.new_find, if_neg hnotP]
      simp only [pass1Step, hold, hfind]
      refine ⟨?_, ?_, ?_, ?_, ?_, ?_, ?_, ?_, ?_⟩
      · intro N' w'
        rw [lookup2_mapInsert]
        by_cases hN : N' = N
        · subst hN
          rw [if_pos rfl, mapFind_insert]
          by_cases hw : w' = w
          · subst hw
            rw [if_pos rfl, if_pos hmem_self, hmNw]
          · rw [if_neg hw, hbase, h.new_find]
            by_cases hp : (w', N') ∈ P
            · rw [if_pos hp, if_pos (hmem_of _ hp)]
            · rw [if_neg hp, if_neg (hmem_out _ hp
                (fun he => hw (congrArg Prod.fst he)))]
        · rw [if_neg hN, h.new_find]
          by_cases hp : (w', N') ∈ P
          · rw [if_pos hp, if_pos (hmem_of _ hp)]
          · rw [if_neg hp, if_neg (hmem_out _ hp
              (fun he => hN (congrArg Prod.snd he)))]
      · intro p hp hsome
        by_cases hN : p.2 = N
        · rw [hN, mapFind_insert, if_pos rfl]
          rfl
        · rw [Option.isSome_iff_exists]
          have hmem : p ∈ P := by
            rcases (hmem_iff p).mp hp with hmem | rfl
            · exact hmem
            · exact absurd rfl hN
          have hs := h.new_dom p hmem hsome
          rw [Option.isSome_iff_exists] at hs
          obtain ⟨info', hinfo'⟩ := hs
          refine ⟨info', ?_⟩
          rw [mapFind_insert, if_neg hN, hinfo']
      · intro N' info' hN'
        rw [mapFind_insert] at hN'
        by_cases hN : N' = N
        · subst hN
          rw [if_pos rfl] at hN'
          obtain rfl : (⟨oldInfo.next_index,
              mapInsert ((mapFind st.newMap N').getD ⟨0, []⟩).cluster_weights_map w idx⟩ :
              ClusterNamesInfo) = info' := by simpa using hN'
          exact ⟨minfo, hmN, hnext⟩
        · rw [if_neg hN] at hN'
          exact h.new_next N' info' hN'
      · intro N'
        rw [mapFind_insert]
        by_cases hN : N' = N
        · subst hN
          rw [if_pos rfl, hmN]
          simp [hnext]
        · rw [if_neg hN]
          exact h.old_next N'
      · intro N' w'
        rw [lookup2_mapInsert]
        by_cases hN : N' = N
        · subst hN
          rw [if_pos rfl]
          by_cases hw : w' = w
          · subst hw
            rw [mapFind_erase_self _ _ hsortedOld, if_pos hmem_self]
          · rw [mapFind_erase_ne _ _ _ hw, ← holdl2, h.old_find]
            by_cases hp : (w', N') ∈ P
            · rw [if_pos hp, if_pos (hmem_of _ hp)]
            · rw [if_neg hp, if_neg (hmem_out _ hp
                (fun he => hw (congrArg Prod.fst he)))]
        · rw [if_neg hN, h.old_find]
          by_cases hp : (w', N') ∈ P
          · rw [if_pos hp, if_pos (hmem_of _ hp)]
          · rw [if_neg hp, if_neg (hmem_out _ hp
              (fun he => hN (congrArg Prod.snd he)))]
      · show st.remaining = _
        rw [h.rem, List.filter_append]
        have hpa : (lookup2 m N w).isNone = false := by rw [hmNw]; rfl
        simp [hpa]
      · intro N'
        rw [bucketVals_mapInsert, bucketVals_mapInsert]
        by_cases hN : N' = N
        · subst hN
          rw [if_pos rfl, if_pos rfl]
          have hnew : valsOf ⟨oldInfo.next_index,
              mapInsert ((mapFind st.newMap N').getD ⟨0, []⟩).cluster_weights_map w idx⟩ =
              idx ::ₘ bucketVals st.newMap N' := by
            rw [valsOf, map_snd_mapInsert_absent _ _ _ (by rw [hbase, hnewabs]),
              ← valsOf_getD st.newMap N']
            rfl
          have holdv : bucketVals st.oldMap N' = idx ::ₘ valsOf ⟨oldInfo.next_index,
              mapErase oldInfo.cluster_weights_map w⟩ := by
            have hbv : bucketVals st.oldMap N' = valsOf oldInfo := by
              simp [bucketVals, hold]
            rw [hbv, valsOf, map_snd_mapErase_present _ _ _ hfind]
            rfl
          rw [hnew, cons_add_swap, ← holdv]
          exact h.vals N'
        · rw [if_neg hN, if_neg hN]
          exact h.vals N'
      · exact WF_insert _ _ _ h.wf_new
          (sortedMap_insert _ _ _ (WF_bucket_sorted st.newMap N h.wf_new))
      · exact WF_insert _ _ _ h.wf_old (sortedMap_erase _ _ hsortedOld)
    | none =>
      have hmNw : lookup2 m N w = none := by
        have := h.old_find N w
        rw [if_neg hnotP] at this
        rw [← this, holdl2, hfind]
      simp only [pass1Step, hold, hfind]
      refine ⟨?_, ?_, ?_, h.old_next, ?_, ?_, ?_, ?_, h.wf_old⟩
      · intro N' w'
        rw [lookup2_mapInsert]
        by_cases hN : N' = N
        · subst hN
          rw [if_pos rfl, hbase, h.new_find]
          by_cases hw : w' = w
          · subst hw
            rw [if_neg hnotP, if_pos hmem_self, hmNw]
          · by_cases hp : (w', N') ∈ P
            · rw [if_pos hp, if_pos (hmem_of _ hp)]
            · rw [if_neg hp, if_neg (hmem_out _ hp
                (fun he => hw (congrArg Prod.fst he)))]
        · rw [if_neg hN, h.new_find]
          by_cases hp : (w', N') ∈ P
          · rw [if_pos hp, if_pos (hmem_of _ hp)]
          · rw [if_neg hp, if_neg (hmem_out _ hp
              (fun he => hN (congrArg Prod.snd he)))]
      · intro p hp hsome
        by_cases hN : p.2 = N
        · rw [hN, mapFind_insert, if_pos rfl]
          rfl
        · rw [Option.isSome_iff_exists]
          have hmem : p ∈ P := by
            rcases (hmem_iff p).mp hp with hmem | rfl
            · exact hmem
            · exact absurd rfl hN
          have hs := h.new_dom p hmem hsome
          rw [Option.isSome_iff_exists] at hs
          obtain ⟨info', hinfo'⟩ := hs
          refine ⟨info', ?_⟩
          rw [mapFind_insert, if_neg hN, hinfo']
      · intro N' info' hN'
        rw [mapFind_insert] at hN'
        by_cases hN : N' = N
        · subst hN
          rw [if_pos rfl] at hN'
          obtain rfl : (⟨oldInfo.next_index,
              ((mapFind st.newMap N').getD ⟨0, []⟩).cluster_weights_map⟩ :
              ClusterNamesInfo) = info' := by simpa using hN'
          exact ⟨minfo, hmN, hnext⟩
        · rw [if_neg hN] at hN'
          exact h.new_next N' info' hN'
      · intro N' w'
        rw [h.old_find]
        by_cases hp : (w', N') ∈ P
        · rw [if_pos hp, if_pos (hmem_of _ hp)]
        · rw [if_neg hp]
          by_cases ha : (w', N') = (w, N)
          · rw [if_pos (ha ▸ hmem_self)]
            obtain ⟨rfl, rfl⟩ := Prod.mk.injEq .. ▸ ha
            rw [hmNw]
          · rw [if_neg (hmem_out _ hp ha)]
      · show st.remaining ++ [(w, N)] = _
        rw [h.rem, List.filter_append]
        have hpa : (lookup2 m N w).isNone = true := by rw [hmNw]; rfl
        simp [hpa]
      · intro N'
        rw [bucketVals_mapInsert]
        by_cases hN : N' = N
        · subst hN
          rw [if_pos rfl]
          have hnv : valsOf ⟨oldInfo.next_index,
              ((mapFind st.newMap N').getD ⟨0, []⟩).cluster_weights_map⟩ =
              bucketVals st.newMap N' := by
            rw [← valsOf_getD st.newMap N']
            rfl
          rw [hnv]
          exact h.vals N'
        · rw [if_neg hN]
          exact h.vals N'
      · exact WF_insert _ _ _ h.wf_new (WF_bucket_sorted st.newMap N h.wf_new)
theorem inv1_fold (m : WeightedClusterIndexMap) (S : List (String × String)) :
    ∀ (P : List (String × String)) (st : Pass1State),
      ((P ++ S).map Prod.fst).Nodup → Inv1 m P st →
      Inv1 m (P ++ S) (S.foldl pass1Step st) := by
  induction S with
  | nil => intro P st _ h; simpa using h
  | cons a S ih =>
    intro P st hnd h
    obtain ⟨w, N⟩ := a
    have hfresh : ∀ p ∈ P, p.1 ≠ w := by
      intro p hp he
      rw [List.map_append] at hnd
      have hdisj := List.disjoint_of_nodup_append hnd
      exact hdisj (List.mem_map_of_mem _ hp) (by simp [he])
    have h1 := inv1_step m P st w N hfresh h
    have hassoc : P ++ (w, N) :: S = (P ++ [(w, N)]) ++ S := by simp
    rw [hassoc] at hnd ⊢
    exact ih (P ++ [(w, N)]) (pass1Step st (w, N)) hnd h1

theorem actionsToProcess_sorted_aux (routes : List RdsRoute)
    (acc : List (String × String)) (hs : SortedMap acc) :
    SortedMap (routes.foldl
      (fun acc route =>
        if route.weighted_clusters.isEmpty then acc
        else
          let keys := GetWeightedClustersKey route.weighted_clusters
          match mapFind acc keys.cluster_weights_key with
          | some _ => acc
          | none => mapInsert acc keys.cluster_weights_key keys.cluster_names_key)
      acc) := by
  induction routes generalizing acc with
  | nil => exact hs
  | cons r rs ih =>
    by_cases he : r.weighted_clusters.isEmpty
    · simp only [List.foldl_cons, if_pos he]
      exact ih acc hs
    · simp only [List.foldl_cons, if_neg he]
      cases hf : mapFind acc (GetWeightedClustersKey r.weighted_clusters).cluster_weights_key with
      | some v => exact ih acc hs
      | none => exact ih _ (sortedMap_insert _ _ _ hs)

/-- `actions_to_process` is a `std::map`, hence sorted by `cluster_weights_key`;
its iteration (= list) order is ascending key order. -/
theorem actionsToProcess_sorted (routes : List RdsRoute) :
    SortedMap (actionsToProcess routes) :=
  actionsToProcess_sorted_aux routes [] sortedMap_nil

theorem sortedMap_keys_nodup {α : Type} (l : List (String × α)) (hs : SortedMap l) :
    (l.map Prod.fst).Nodup := by
  rw [List.Nodup, List.pairwise_map]
  exact hs.imp (fun h => strLt_ne _ _ h)

/-- The new map's `next_index` for bucket `N` during the reuse pass,
defaulting to the old bucket's value when the new bucket is absent. -/
def newNextD (m nm : WeightedClusterIndexMap) (N : String) : Nat :=
  match mapFind nm N with
  | none => bucketNextD m N
  | some info => info.next_index

/-- Invariant of the reuse pass over the remaining (unsettled) actions, after
processing prefix `Q`.  `m` is the pre-update map, `A` the full
`actions_to_process` list; `s.1`/`s.2` are the new and old maps. -/
structure Inv2 (m : WeightedClusterIndexMap) (A Q : List (String × String))
    (s : WeightedClusterIndexMap × WeightedClusterIndexMap) : Prop where
  settled_keep : ∀ N w, (w, N) ∈ A → (lookup2 m N w).isSome = true →
    lookup2 s.1 N w = lookup2 m N w
  q_alloc : ∀ a ∈ Q, (lookup2 s.1 a.2 a.1).isSome = true
  only_actions : ∀ N w, (lookup2 s.1 N w).isSome = true → (w, N) ∈ A
  new_unalloc : ∀ N w, lookup2 m N w = none → (w, N) ∉ Q → lookup2 s.1 N w = none
  new_dom2 : ∀ a ∈ A, (mapFind m a.2).isSome = true → (mapFind s.1 a.2).isSome = true
  new_next_ge : ∀ N info, mapFind s.1 N = some info → bucketNextD m N ≤ info.next_index
  old_next : ∀ N, bucketNextD s.2 N = bucketNextD m N
  old_dom : ∀ N, mapFind s.2 N = none → mapFind m N = none
  vals : ∀ N, ∃ fresh : Multiset Nat, fresh.Nodup ∧
    (∀ v ∈ fresh, bucketNextD m N ≤ v ∧ v < newNextD m s.1 N) ∧
    bucketVals s.1 N + bucketVals s.2 N = bucketVals m N + fresh
  wf_new : WF s.1
  wf_old : WF s.2

theorem inv2_init (m : WeightedClusterIndexMap) (A : List (String × String))
    (st : Pass1State) (h : Inv1 m A st) :
    Inv2 m A [] (st.newMap, st.oldMap) := by
  refine ⟨?_, ?_, ?_, ?_, h.new_dom, ?_, ?_, ?_, ?_, h.wf_new, h.wf_old⟩
  · intro N w hmem _
    rw [h.new_find, if_pos hmem]
  · intro a ha; simp at ha
  · intro N w hsome
    rw [h.new_find] at hsome
    by_cases hmem : (w, N) ∈ A
    · exact hmem
    · rw [if_neg hmem] at hsome; simp at hsome
  · intro N w hnone _
    rw [h.new_find]
    by_cases hmem : (w, N) ∈ A
    · rw [if_pos hmem, hnone]
    · rw [if_neg hmem]
  · intro N info hsome
    obtain ⟨oinfo, hmo, he⟩ := h.new_next N info hsome
    simp [bucketNextD, hmo, he]
  · intro N
    have := h.old_next N
    cases ho : mapFind st.oldMap N with
    | none =>
      rw [ho] at this
      have hm := Option.map_eq_none'.mp this.symm
      simp [bucketNextD, ho, hm]
    | some oinfo =>
      rw [ho] at this
      cases hm : mapFind m N with
      | none => rw [hm] at this; simp at this
      | some minfo =>
        rw [hm] at this; simp at this
        simp [bucketNextD, ho, hm, this]
  · intro N hnone
    have := h.old_next N
    rw [hnone] at this
    exact Option.map_eq_none'.mp this.symm
  · intro N
    refine ⟨0, Multiset.nodup_zero, by simp, ?_⟩
    rw [add_zero]
    exact h.vals N

theorem inv2_step (m : WeightedClusterIndexMap) (A Q : List (String × String))
    (s : WeightedClusterIndexMap × WeightedClusterIndexMap) (w0 N0 : String)
    (hmemA : (w0, N0) ∈ A) (huns : lookup2 m N0 w0 = none)
    (hfresh : ∀ p ∈ Q, p.1 ≠ w0) (h : Inv2 m A Q s) :
    Inv2 m A (Q ++ [(w0, N0)]) (pass2Step s (w0, N0)) := by
  have hnotQ : (w0, N0) ∉ Q := fun hmem => hfresh (w0, N0) hmem rfl
  have hmem_iff : ∀ p : String × String, p ∈ Q ++ [(w0, N0)] ↔ p ∈ Q ∨ p = (w0, N0) := by
    intro p; simp
  have hbase : ∀ w', mapFind ((mapFind s.1 N0).getD ⟨0, []⟩).cluster_weights_map w' =
      lookup2 s.1 N0 w' := fun w' => mapFind_getD_eq_lookup2 s.1 N0 w'
  have hnewabs : lookup2 s.1 N0 w0 = none := h.new_unalloc N0 w0 huns hnotQ
  have hnn : ((mapFind s.1 N0).getD ⟨0, []⟩).next_index = newNextD m s.1 N0 ∧
      bucketNextD m N0 ≤ ((mapFind s.1 N0).getD ⟨0, []⟩).next_index := by
    cases hf : mapFind s.1 N0 with
    | none =>
      have hmN0 : mapFind m N0 = none := by
        by_contra hne
        have hsome : (mapFind m N0).isSome = true := Option.ne_none_iff_isSome.mp hne
        have := h.new_dom2 (w0, N0) hmemA hsome
        rw [hf] at this; simp at this
      simp [newNextD, hf, bucketNextD, hmN0]
    | some info =>
      constructor
      · simp [newNextD, hf]
      · simp only [Option.getD_some]
        exact h.new_next_ge N0 info hf
  have hvalsbase : valsOf ((mapFind s.1 N0).getD ⟨0, []⟩) = bucketVals s.1 N0 :=
    valsOf_getD s.1 N0
  cases hob : ((mapFind s.2 N0).getD ⟨0, []⟩).cluster_weights_map with
  | cons hd rest =>
    obtain ⟨wh, idx0⟩ := hd
    obtain ⟨oldInfo, hfo, hoi⟩ : ∃ oldInfo, mapFind s.2 N0 = some oldInfo ∧
        (mapFind s.2 N0).getD ⟨0, []⟩ = oldInfo := by
      cases hfo : mapFind s.2 N0 with
      | none => rw [hfo] at hob; simp at hob
      | some oldInfo => exact ⟨oldInfo, rfl, rfl⟩
    rw [hoi] at hob
    have hsortedOld : SortedMap oldInfo.cluster_weights_map := h.wf_old.2 N0 oldInfo hfo
    simp only [pass2Step, hoi, hob]
    refine ⟨?_, ?_, ?_, ?_, ?_, ?_, ?_, ?_, ?_, ?_, ?_⟩
    · intro N w hmem hsett
      rw [lookup2_mapInsert]
      by_cases hN : N = N0
      · subst hN
        rw [if_pos rfl, mapFind_insert]
        by_cases hw : w = w0
        · subst hw
          rw [huns] at hsett; simp at hsett
        · rw [if_neg hw, hbase]
          exact h.settled_keep N w hmem hsett
      · rw [if_neg hN]
        exact h.settled_keep N w hmem hsett
    · intro a ha
      rcases (hmem_iff a).mp ha with hmem | rfl
      · rw [lookup2_mapInsert]
        by_cases hN : a.2 = N0
        · rw [if_pos hN, mapFind_insert, if_neg (hfresh a hmem)]
          rw [hbase, ← hN]
          exact h.q_alloc a hmem
        · rw [if_neg hN]
          exact h.q_alloc a hmem
      · rw [lookup2_mapInsert, if_pos rfl, mapFind_insert, if_pos rfl]
        rfl
    · intro N w hsome
      rw [lookup2_mapInsert] at hsome
      by_cases hN : N = N0
      · rw [if_pos hN, mapFind_insert] at hsome
        by_cases hw : w = w0
        · subst hw; subst hN; exact hmemA
        · rw [if_neg hw, hbase] at hsome
          subst hN
          exact h.only_actions N w hsome
      · rw [if_neg hN] at hsome
        exact h.only_actions N w hsome
    · intro N w hnone hnot
      rw [lookup2_mapInsert]
      have hnotQ' : (w, N) ∉ Q := fun hc => hnot ((hmem_iff _).mpr (Or.inl hc))
      have hne : (w, N) ≠ (w0, N0) := fun hc => hnot ((hmem_iff _).mpr (Or.inr hc))
      by_cases hN : N = N0
      · subst hN
        rw [if_pos rfl, mapFind_insert]
        by_cases hw : w = w0
        · exact absurd (by rw [hw]) hne
        · rw [if_neg hw, hbase]
          exact h.new_unalloc N w hnone hnotQ'
      · rw [if_neg hN]
        exact h.new_unalloc N w hnone hnotQ'
    · intro a ha hsome
      by_cases hN : a.2 = N0
      · rw [hN, mapFind_insert, if_pos rfl]; rfl
      · rw [mapFind_insert, if_neg hN]
        exact h.new_dom2 a ha hsome
    · intro N info hfind
      rw [mapFind_insert] at hfind
      by_cases hN : N = N0
      · subst hN
        rw [if_pos rfl] at hfind
        obtain rfl : (⟨((mapFind s.1 N).getD ⟨0, []⟩).next_index,
            mapInsert ((mapFind s.1 N).getD ⟨0, []⟩).cluster_weights_map w0 idx0⟩ :
            ClusterNamesInfo) = info := by simpa using hfind
        exact hnn.2
      · rw [if_neg hN] at hfind
        exact h.new_next_ge N info hfind
    · intro N
      rw [bucketNextD_mapInsert]
      by_cases hN : N = N0
      · subst hN
        rw [if_pos rfl, ← h.old_next N]
        simp [bucketNextD, hfo]
      · rw [if_neg hN]
        exact h.old_next N
    · intro N hnone
      rw [mapFind_insert] at hnone
      by_cases hN : N = N0
      · rw [if_pos hN] at hnone; simp at hnone
      · rw [if_neg hN] at hnone
        exact h.old_dom N hnone
    · intro N
      by_cases hN : N = N0
      · subst hN
        obtain ⟨fresh, hnd, hbound, hid⟩ := h.vals N
        refine ⟨fresh, hnd, ?_, ?_⟩
        · intro v hv
          obtain ⟨h1, h2⟩ := hbound v hv
          refine ⟨h1, ?_⟩
          have hlt2 : v < ((mapFind s.1 N).getD ⟨0, []⟩).next_index := by
            rw [hnn.1]; exact h2
          simpa [newNextD, mapFind_insert] using hlt2
        · rw [bucketVals_mapInsert, if_pos rfl, bucketVals_mapInsert, if_pos rfl]
          have hnv : valsOf (⟨((mapFind s.1 N).getD ⟨0, []⟩).next_index,
              mapInsert ((mapFind s.1 N).getD ⟨0, []⟩).cluster_weights_map w0 idx0⟩ :
              ClusterNamesInfo) = idx0 ::ₘ bucketVals s.1 N := by
            rw [valsOf, map_snd_mapInsert_absent _ _ _ (by rw [hbase, hnewabs]), ← hvalsbase]
            rfl
          have hov : bucketVals s.2 N = idx0 ::ₘ valsOf (⟨oldInfo.next_index, rest⟩ :
              ClusterNamesInfo) := by
            simp [bucketVals, hfo, valsOf, hob]
          rw [hnv, cons_add_swap, ← hov]
          exact hid
      · obtain ⟨fresh, hnd, hbound, hid⟩ := h.vals N
        refine ⟨fresh, hnd, ?_, ?_⟩
        · intro v hv
          obtain ⟨h1, h2⟩ := hbound v hv
          refine ⟨h1, ?_⟩
          simpa [newNextD, mapFind_insert, hN] using h2
        · rw [bucketVals_mapInsert, if_neg hN, bucketVals_mapInsert, if_neg hN]
          exact hid
    · exact WF_insert _ _ _ h.wf_new
        (sortedMap_insert _ _ _ (WF_bucket_sorted s.1 N0 h.wf_new))
    · refine WF_insert _ _ _ h.wf_old ?_
      have := hsortedOld
      rw [hob] at this
      exact sortedMap_tail _ _ this
  | nil =>
    simp only [pass2Step, hob]
    refine ⟨?_, ?_, ?_, ?_, ?_, ?_, ?_, ?_, ?_, ?_, ?_⟩
    · intro N w hmem hsett
      rw [lookup2_mapInsert]
      by_cases hN : N = N0
      · subst hN
        rw [if_pos rfl, mapFind_insert]
        by_cases hw : w = w0
        · subst hw
          rw [huns] at hsett; simp at hsett
        · rw [if_neg hw, hbase]
          exact h.settled_keep N w hmem hsett
      · rw [if_neg hN]
        exact h.settled_keep N w hmem hsett
    · intro a ha
      rcases (hmem_iff a).mp ha with hmem | rfl
      · rw [lookup2_mapInsert]
        by_cases hN : a.2 = N0
        · rw [if_pos hN, mapFind_insert, if_neg (hfresh a hmem)]
          rw [hbase, ← hN]
          exact h.q_alloc a hmem
        · rw [if_neg hN]
          exact h.q_alloc a hmem
      · rw [lookup2_mapInsert, if_pos rfl, mapFind_insert, if_pos rfl]
        rfl
    · intro N w hsome
      rw [lookup2_mapInsert] at hsome
      by_cases hN : N = N0
      · rw [if_pos hN, mapFind_insert] at hsome
        by_cases hw : w = w0
        · subst hw; subst hN; exact hmemA
        · rw [if_neg hw, hbase] at hsome
          subst hN
          exact h.only_actions N w hsome
      · rw [if_neg hN] at hsome
        exact h.only_actions N w hsome
    · intro N w hnone hnot
      rw [lookup2_mapInsert]
      have hnotQ' : (w, N) ∉ Q := fun hc => hnot ((hmem_iff _).mpr (Or.inl hc))
      have hne : (w, N) ≠ (w0, N0) := fun hc => hnot ((hmem_iff _).mpr (Or.inr hc))
      by_cases hN : N = N0
      · subst hN
        rw [if_pos rfl, mapFind_insert]
        by_cases hw : w = w0
        · exact absurd (by rw [hw]) hne
        · rw [if_neg hw, hbase]
          exact h.new_unalloc N w hnone hnotQ'
      · rw [if_neg hN]
        exact h.new_unalloc N w hnone hnotQ'
    · intro a ha hsome
      by_cases hN : a.2 = N0
      · rw [hN, mapFind_insert, if_pos rfl]; rfl
      · rw [mapFind_insert, if_neg hN]
        exact h.new_dom2 a ha hsome
    · intro N info hfind
      rw [mapFind_insert] at hfind
      by_cases hN : N = N0
      · subst hN
        rw [if_pos rfl] at hfind
        obtain rfl : (⟨((mapFind s.1 N).getD ⟨0, []⟩).next_index + 1,
            mapInsert ((mapFind s.1 N).getD ⟨0, []⟩).cluster_weights_map w0
              ((mapFind s.1 N).getD ⟨0, []⟩).next_index⟩ :
            ClusterNamesInfo) = info := by simpa using hfind
        exact le_trans hnn.2 (Nat.le_succ _)
      · rw [if_neg hN] at hfind
        exact h.new_next_ge N info hfind
    · intro N
      rw [bucketNextD_mapInsert]
      by_cases hN : N = N0
      · subst hN
        rw [if_pos rfl, nextD_getD s.2 N, h.old_next N]
      · rw [if_neg hN]
        exact h.old_next N
    · intro N hnone
      rw [mapFind_insert] at hnone
      by_cases hN : N = N0
      · rw [if_pos hN] at hnone; simp at hnone
      · rw [if_neg hN] at hnone
        exact h.old_dom N hnone
    · intro N
      by_cases hN : N = N0
      · subst hN
        obtain ⟨fresh, hnd, hbound, hid⟩ := h.vals N
        have hcn : ((mapFind s.1 N).getD ⟨0, []⟩).next_index ∉ fresh := by
          intro hc
          have hlt := (hbound _ hc).2
          rw [← hnn.1] at hlt
          exact lt_irrefl _ hlt
        refine ⟨((mapFind s.1 N).getD ⟨0, []⟩).next_index ::ₘ fresh,
          Multiset.nodup_cons.mpr ⟨hcn, hnd⟩, ?_, ?_⟩
        · intro v hv
          have hred : newNextD m (mapInsert s.1 N
              ⟨((mapFind s.1 N).getD ⟨0, []⟩).next_index + 1,
                mapInsert ((mapFind s.1 N).getD ⟨0, []⟩).cluster_weights_map w0
                  ((mapFind s.1 N).getD ⟨0, []⟩).next_index⟩) N =
              ((mapFind s.1 N).getD ⟨0, []⟩).next_index + 1 := by
            simp [newNextD, mapFind_insert]
          rw [hred]
          rcases Multiset.mem_cons.mp hv with rfl | hv2
          · exact ⟨hnn.2, Nat.lt_succ_self _⟩
          · obtain ⟨h1, h2⟩ := hbound v hv2
            rw [← hnn.1] at h2
            exact ⟨h1, lt_trans h2 (Nat.lt_succ_self _)⟩
        · rw [bucketVals_mapInsert, if_pos rfl, bucketVals_mapInsert, if_pos rfl]
          have hnv : valsOf (⟨((mapFind s.1 N).getD ⟨0, []⟩).next_index + 1,
              mapInsert ((mapFind s.1 N).getD ⟨0, []⟩).cluster_weights_map w0
                ((mapFind s.1 N).getD ⟨0, []⟩).next_index⟩ :
              ClusterNamesInfo) =
              ((mapFind s.1 N).getD ⟨0, []⟩).next_index ::ₘ bucketVals s.1 N := by
            rw [valsOf, map_snd_mapInsert_absent _ _ _ (by rw [hbase, hnewabs]), ← hvalsbase]
            rfl
          have hov : valsOf ((mapFind s.2 N).getD ⟨0, []⟩) = bucketVals s.2 N :=
            valsOf_getD s.2 N
          rw [hnv, hov, Multiset.cons_add, hid, ← Multiset.add_cons]
      · obtain ⟨fresh, hnd, hbound, hid⟩ := h.vals N
        refine ⟨fresh, hnd, ?_, ?_⟩
        · intro v hv
          obtain ⟨h1, h2⟩ := hbound v hv
          refine ⟨h1, ?_⟩
          simpa [newNextD, mapFind_insert, hN] using h2
        · rw [bucketVals_mapInsert, if_neg hN, bucketVals_mapInsert, if_neg hN]
          exact hid
    · exact WF_insert _ _ _ h.wf_new
        (sortedMap_insert _ _ _ (WF_bucket_sorted s.1 N0 h.wf_new))
    · exact WF_insert _ _ _ h.wf_old (by rw [hob]; exact sortedMap_nil)

theorem inv2_fold (m : WeightedClusterIndexMap) (A : List (String × String))
    (S : List (String × String)) :
    ∀ (Q : List (String × String)) (s : WeightedClusterIndexMap × WeightedClusterIndexMap),
      (∀ a ∈ S, a ∈ A ∧ lookup2 m a.2 a.1 = none) →
      ((Q ++ S).map Prod.fst).Nodup →
      Inv2 m A Q s →
      Inv2 m A (Q ++ S) (S.foldl pass2Step s) := by
  induction S with
  | nil => intro Q s _ _ h; simpa using h
  | cons a S ih =>
    intro Q s hcond hnd h
    obtain ⟨w, N⟩ := a
    have hfresh : ∀ p ∈ Q, p.1 ≠ w := by
      intro p hp he
      rw [List.map_append] at hnd
      have hdisj := List.disjoint_of_nodup_append hnd
      exact hdisj (List.mem_map_of_mem _ hp) (by simp [he])
    obtain ⟨hmemA, huns⟩ := hcond (w, N) (List.mem_cons_self _ _)
    have h1 := inv2_step m A Q s w N hmemA huns hfresh h
    have hassoc : Q ++ (w, N) :: S = (Q ++ [(w, N)]) ++ S := by simp
    rw [hassoc] at hnd ⊢
    exact ih (Q ++ [(w, N)]) (pass2Step s (w, N))
      (fun a ha => hcond a (List.mem_cons_of_mem _ ha)) hnd h1

/-- The two passes of `UpdateWeightedClusterIndexMap`, written out. -/
theorem upd_eq_fold (m : WeightedClusterIndexMap) (routes : List RdsRoute) :
    UpdateWeightedClusterIndexMap m routes =
      (((actionsToProcess routes).foldl pass1Step ⟨[], m, []⟩).remaining.foldl pass2Step
        (((actionsToProcess routes).foldl pass1Step ⟨[], m, []⟩).newMap,
         ((actionsToProcess routes).foldl pass1Step ⟨[], m, []⟩).oldMap)).1 := rfl

theorem upd_inv2_spec (m : WeightedClusterIndexMap) (routes : List RdsRoute) (hm : WF m) :
    Inv2 m (actionsToProcess routes)
      (((actionsToProcess routes).foldl pass1Step ⟨[], m, []⟩).remaining)
      (((actionsToProcess routes).foldl pass1Step ⟨[], m, []⟩).remaining.foldl pass2Step
        (((actionsToProcess routes).foldl pass1Step ⟨[], m, []⟩).newMap,
         ((actionsToProcess routes).foldl pass1Step ⟨[], m, []⟩).oldMap)) := by
  have hsA : SortedMap (actionsToProcess routes) := actionsToProcess_sorted routes
  have hndA : ((actionsToProcess routes).map Prod.fst).Nodup :=
    sortedMap_keys_nodup _ hsA
  have h1 : Inv1 m (actionsToProcess routes)
      ((actionsToProcess routes).foldl pass1Step ⟨[], m, []⟩) := by
    have hf := inv1_fold m (actionsToProcess routes) [] ⟨[], m, []⟩
      (by simpa using hndA) (inv1_init m hm)
    simpa using hf
  have hrem : ((actionsToProcess routes).foldl pass1Step ⟨[], m, []⟩).remaining =
      (actionsToProcess routes).filter (fun a => (lookup2 m a.2 a.1).isNone) := h1.rem
  have h2 := inv2_init m (actionsToProcess routes) _ h1
  have hcond : ∀ a ∈ ((actionsToProcess routes).foldl pass1Step ⟨[], m, []⟩).remaining,
      a ∈ actionsToProcess routes ∧ lookup2 m a.2 a.1 = none := by
    intro a ha
    rw [hrem] at ha
    refine ⟨List.mem_of_mem_filter ha, ?_⟩
    have hpred := List.of_mem_filter ha
    simpa using hpred
  have hnd2 : ((([] : List (String × String)) ++
      ((actionsToProcess routes).foldl pass1Step ⟨[], m, []⟩).remaining).map Prod.fst).Nodup := by
    rw [List.nil_append, hrem]
    exact List.Nodup.sublist ((List.filter_sublist _).map Prod.fst) hndA
  have h3 := inv2_fold m (actionsToProcess routes)
    ((actionsToProcess routes).foldl pass1Step ⟨[], m, []⟩).remaining
    [] (((actionsToProcess routes).foldl pass1Step ⟨[], m, []⟩).newMap,
       ((actionsToProcess routes).foldl pass1Step ⟨[], m, []⟩).oldMap)
    hcond hnd2 h2
  rw [List.nil_append] at h3
  exact h3

/-- After the exact-match pass the work list holds exactly the unsettled
requested actions, in sorted order. -/
theorem upd_remaining_eq (m : WeightedClusterIndexMap) (routes : List RdsRoute)
    (hm : WF m) :
    ((actionsToProcess routes).foldl pass1Step ⟨[], m, []⟩).remaining =
      (actionsToProcess routes).filter (fun a => (lookup2 m a.2 a.1).isNone) := by
  have hndA : ((actionsToProcess routes).map Prod.fst).Nodup :=
    sortedMap_keys_nodup _ (actionsToProcess_sorted routes)
  have h1 : Inv1 m (actionsToProcess routes)
      ((actionsToProcess routes).foldl pass1Step ⟨[], m, []⟩) := by
    have hf := inv1_fold m (actionsToProcess routes) [] ⟨[], m, []⟩
      (by simpa using hndA) (inv1_init m hm)
    simpa using hf
  exact h1.rem

/-- Every requested action ends up allocated in the new map. -/
theorem upd_lookup2_isSome_of_mem (m : WeightedClusterIndexMap) (routes : List RdsRoute)
    (w N : String) (hm : WF m) (hmem : (w, N) ∈ actionsToProcess routes) :
    (lookup2 (UpdateWeightedClusterIndexMap m routes) N w).isSome = true := by
  have h := upd_inv2_spec m routes hm
  rw [upd_eq_fold]
  by_cases hs : (lookup2 m N w).isSome = true
  · rw [h.settled_keep N w hmem hs]
    exact hs
  · have hnone : lookup2 m N w = none := by
      cases hl : lookup2 m N w with
      | none => rfl
      | some i => rw [hl] at hs; simp at hs
    refine h.q_alloc (w, N) ?_
    rw [upd_remaining_eq m routes hm]
    exact List.mem_filter.mpr ⟨hmem, by simp [hnone]⟩

/-- An exact match keeps its old index. -/
theorem upd_lookup2_exact (m : WeightedClusterIndexMap) (routes : List RdsRoute)
    (w N : String) (hm : WF m) (hmem : (w, N) ∈ actionsToProcess routes)
    (hs : (lookup2 m N w).isSome = true) :
    lookup2 (UpdateWeightedClusterIndexMap m routes) N w = lookup2 m N w := by
  have h := upd_inv2_spec m routes hm
  rw [upd_eq_fold]
  exact h.settled_keep N w hmem hs

/-- Only requested actions are present in the new map (GC of stale entries). -/
theorem upd_lookup2_only (m : WeightedClusterIndexMap) (routes : List RdsRoute)
    (w N : String) (hm : WF m)
    (hs : (lookup2 (UpdateWeightedClusterIndexMap m routes) N w).isSome = true) :
    (w, N) ∈ actionsToProcess routes := by
  have h := upd_inv2_spec m routes hm
  rw [upd_eq_fold] at hs
  exact h.only_actions N w hs

theorem upd_WF (m : WeightedClusterIndexMap) (routes : List RdsRoute) (hm : WF m) :
    WF (UpdateWeightedClusterIndexMap m routes) := by
  have h := upd_inv2_spec m routes hm
  rw [upd_eq_fold]
  exact h.wf_new

/-- A surviving bucket's `next_index` never drops below its old value. -/
theorem upd_next_ge (m : WeightedClusterIndexMap) (routes : List RdsRoute)
    (N : String) (info : ClusterNamesInfo) (hm : WF m)
    (hfind : mapFind (UpdateWeightedClusterIndexMap m routes) N = some info) :
    bucketNextD m N ≤ info.next_index := by
  have h := upd_inv2_spec m routes hm
  rw [upd_eq_fold] at hfind
  exact h.new_next_ge N info hfind

/-- The allocator preserves the full table invariant: per bucket, the stored
indices stay pairwise distinct and below `next_index`. -/
theorem upd_WFTable (m : WeightedClusterIndexMap) (routes : List RdsRoute)
    (hmt : WFTable m) : WFTable (UpdateWeightedClusterIndexMap m routes) := by
  obtain ⟨hm, hbuckets⟩ := hmt
  refine ⟨upd_WF m routes hm, ?_⟩
  intro N info hfind
  have h := upd_inv2_spec m routes hm
  rw [upd_eq_fold] at hfind
  obtain ⟨fresh, hnd, hbound, hid⟩ := h.vals N
  have hbv : bucketVals
      (((actionsToProcess routes).foldl pass1Step ⟨[], m, []⟩).remaining.foldl pass2Step
        (((actionsToProcess routes).foldl pass1Step ⟨[], m, []⟩).newMap,
         ((actionsToProcess routes).foldl pass1Step ⟨[], m, []⟩).oldMap)).1 N =
      valsOf info := by
    simp [bucketVals, hfind]
  have hnnd : newNextD m
      (((actionsToProcess routes).foldl pass1Step ⟨[], m, []⟩).remaining.foldl pass2Step
        (((actionsToProcess routes).foldl pass1Step ⟨[], m, []⟩).newMap,
         ((actionsToProcess routes).foldl pass1Step ⟨[], m, []⟩).oldMap)).1 N =
      info.next_index := by
    simp [newNextD, hfind]
  have hmv_nodup : (bucketVals m N).Nodup := by
    cases hf : mapFind m N with
    | none => simp [bucketVals, hf]
    | some minfo =>
      have hbv2 : bucketVals m N = valsOf minfo := by simp [bucketVals, hf]
      rw [hbv2]
      exact (hbuckets N minfo hf).1
  have hmv_lt : ∀ v ∈ bucketVals m N, v < bucketNextD m N := by
    intro v hv
    cases hf : mapFind m N with
    | none => rw [bucketVals, hf] at hv; simp at hv
    | some minfo =>
      have hbv2 : bucketVals m N = valsOf minfo := by simp [bucketVals, hf]
      rw [hbv2] at hv
      have hlt := (hbuckets N minfo hf).2 v hv
      simpa [bucketNextD, hf] using hlt
  have hdisj : Disjoint (bucketVals m N) fresh := by
    rw [Multiset.disjoint_left]
    intro v hvm hvf
    exact absurd (lt_of_lt_of_le (hmv_lt v hvm) (hbound v hvf).1) (lt_irrefl v)
  have hsum_nodup : (bucketVals m N + fresh).Nodup :=
    Multiset.nodup_add.mpr ⟨hmv_nodup, hnd, hdisj⟩
  have hle : valsOf info ≤ bucketVals m N + fresh := by
    rw [← hid, ← hbv]
    exact Multiset.le_add_right _ _
  refine ⟨Multiset.nodup_of_le hle hsum_nodup, ?_⟩
  intro v hv
  have hv2 : v ∈ bucketVals m N + fresh := Multiset.mem_of_le hle hv
  rcases Multiset.mem_add.mp hv2 with hvm | hvf
  · exact lt_of_lt_of_le (hmv_lt v hvm) (h.new_next_ge N info hfind)
  · have := (hbound v hvf).2
    rwa [hnnd] at this

/-- The weighted-cluster route set of an update: the `weighted_clusters` lists
of its weighted routes, in route order.  This is all of an update that
`UpdateWeightedClusterIndexMap` reads. -/
def weightedClustersOf (routes : List RdsRoute) : List (List ClusterWeight) :=
  (routes.filter (fun r => !r.weighted_clusters.isEmpty)).map
    (fun r => r.weighted_clusters)

theorem actionsToProcess_congr_aux (routes : List RdsRoute) :
    ∀ acc : List (String × String),
      routes.foldl
        (fun acc route =>
          if route.weighted_clusters.isEmpty then acc
          else
            let keys := GetWeightedClustersKey route.weighted_clusters
            match mapFind acc keys.cluster_weights_key with
            | some _ => acc
            | none => mapInsert acc keys.cluster_weights_key keys.cluster_names_key)
        acc =
      (weightedClustersOf routes).foldl
        (fun acc wcs =>
          let keys := GetWeightedClustersKey wcs
          match mapFind acc keys.cluster_weights_key with
          | some _ => acc
          | none => mapInsert acc keys.cluster_weights_key keys.cluster_names_key)
        acc := by
  induction routes with
  | nil => intro acc; rfl
  | cons r rs ih =>
    intro acc
    by_cases he : r.weighted_clusters.isEmpty
    · have hw : weightedClustersOf (r :: rs) = weightedClustersOf rs := by
        simp [weightedClustersOf, List.filter_cons, he]
      rw [hw]
      simp only [List.foldl_cons, if_pos he]
      exact ih acc
    · have hw : weightedClustersOf (r :: rs) =
          r.weighted_clusters :: weightedClustersOf rs := by
        simp [weightedClustersOf, List.filter_cons, he]
      rw [hw]
      simp only [List.foldl_cons, if_neg he]
      exact ih _

/-- `actions_to_process` depends only on the update's weighted-cluster route
set. -/
theorem actionsToProcess_congr (u1 u2 : List RdsRoute)
    (h : weightedClustersOf u1 = weightedClustersOf u2) :
    actionsToProcess u1 = actionsToProcess u2 := by
  rw [actionsToProcess, actionsToProcess, actionsToProcess_congr_aux u1 [],
    actionsToProcess_congr_aux u2 [], h]

/-- `WeightedClustersActionName` is determined by the two-level lookup at the
route's derived keys. -/
theorem WCAN_eq_lookup2 (m : WeightedClusterIndexMap) (wcs : List ClusterWeight) :
    WeightedClustersActionName m wcs =
      (lookup2 m (GetWeightedClustersKey wcs).cluster_names_key
        (GetWeightedClustersKey wcs).cluster_weights_key).map
        (fun idx => (GetWeightedClustersKey wcs).cluster_names_key ++ "_" ++ toString idx) := by
  simp only [WeightedClustersActionName, lookup2]
  cases mapFind m (GetWeightedClustersKey wcs).cluster_names_key with
  | none => simp
  | some info =>
    cases h2 : mapFind info.cluster_weights_map
        (GetWeightedClustersKey wcs).cluster_weights_key with
    | none => simp [h2]
    | some idx => simp [h2]

/-- C1: for every allocation table and two consecutive updates whose
weighted-cluster route sets are identical (same cluster names and weights),
running `UpdateWeightedClusterIndexMap` and then `WeightedClustersActionName`
on the second update yields exactly the same action name for every
weighted-cluster action as it did for the first update.  (`WF m0` is the
`std::map` representation invariant of the embedded table.) -/
theorem c1_idempotent_naming (m0 : WeightedClusterIndexMap) (u1 u2 : List RdsRoute)
    (hm : WF m0) (hsame : weightedClustersOf u1 = weightedClustersOf u2) :
    ∀ r ∈ u2, r.weighted_clusters ≠ [] →
      WeightedClustersActionName
          (UpdateWeightedClusterIndexMap (UpdateWeightedClusterIndexMap m0 u1) u2)
          r.weighted_clusters =
        WeightedClustersActionName (UpdateWeightedClusterIndexMap m0 u1)
          r.weighted_clusters := by
  intro r _ _
  have hA : actionsToProcess u1 = actionsToProcess u2 := actionsToProcess_congr u1 u2 hsame
  have hm1 : WF (UpdateWeightedClusterIndexMap m0 u1) := upd_WF m0 u1 hm
  rw [WCAN_eq_lookup2, WCAN_eq_lookup2]
  congr 1
  by_cases hmem : ((GetWeightedClustersKey r.weighted_clusters).cluster_weights_key,
      (GetWeightedClustersKey r.weighted_clusters).cluster_names_key) ∈ actionsToProcess u2
  · have hm1some := upd_lookup2_isSome_of_mem m0 u1
      (GetWeightedClustersKey r.weighted_clusters).cluster_weights_key
      (GetWeightedClustersKey r.weighted_clusters).cluster_names_key hm (hA ▸ hmem)
    exact upd_lookup2_exact (UpdateWeightedClusterIndexMap m0 u1) u2
      (GetWeightedClustersKey r.weighted_clusters).cluster_weights_key
      (GetWeightedClustersKey r.weighted_clusters).cluster_names_key hm1 hmem hm1some
  · have h1 : lookup2 (UpdateWeightedClusterIndexMap m0 u1)
        (GetWeightedClustersKey r.weighted_clusters).cluster_names_key
        (GetWeightedClustersKey r.weighted_clusters).cluster_weights_key = none := by
      cases hl : lookup2 (UpdateWeightedClusterIndexMap m0 u1)
          (GetWeightedClustersKey r.weighted_clusters).cluster_names_key
          (GetWeightedClustersKey r.weighted_clusters).cluster_weights_key with
      | none => rfl
      | some i =>
        exact absurd (hA ▸ upd_lookup2_only m0 u1 _ _ hm (by rw [hl]; rfl)) hmem
    have h2 : lookup2 (UpdateWeightedClusterIndexMap
          (UpdateWeightedClusterIndexMap m0 u1) u2)
        (GetWeightedClustersKey r.weighted_clusters).cluster_names_key
        (GetWeightedClustersKey r.weighted_clusters).cluster_weights_key = none := by
      cases hl : lookup2 (UpdateWeightedClusterIndexMap
            (UpdateWeightedClusterIndexMap m0 u1) u2)
          (GetWeightedClustersKey r.weighted_clusters).cluster_names_key
          (GetWeightedClustersKey r.weighted_clusters).cluster_weights_key with
      | none => rfl
      | some i =>
        exact absurd (upd_lookup2_only (UpdateWeightedClusterIndexMap m0 u1) u2 _ _ hm1
          (by rw [hl]; rfl)) hmem
    rw [h1, h2]

/-- A route used by several concrete checks below. -/
def mkWeightedRoute (wcs : List (String × Nat)) : RdsRoute :=
  { matchers :=
      { path_matcher := { type := PathMatcherType.PREFIX_K, string_matcher := "",
                          regex_pattern := "" },
        header_matchers := [],
        fraction_per_million := none },
    cluster_name := "",
    weighted_clusters := wcs.map (fun p => { name := p.1, weight := p.2 }) }

theorem c1_idempotent_naming_witness :
    WF ([] : WeightedClusterIndexMap) ∧
    weightedClustersOf [mkWeightedRoute [("a", 1), ("b", 1)]] =
      weightedClustersOf [mkWeightedRoute [("a", 1), ("b", 1)]] ∧
    mkWeightedRoute [("a", 1), ("b", 1)] ∈ [mkWeightedRoute [("a", 1), ("b", 1)]] ∧
    (mkWeightedRoute [("a", 1), ("b", 1)]).weighted_clusters ≠ [] ∧
    WeightedClustersActionName
        (UpdateWeightedClusterIndexMap
          (UpdateWeightedClusterIndexMap [] [mkWeightedRoute [("a", 1), ("b", 1)]])
          [mkWeightedRoute [("a", 1), ("b", 1)]])
        (mkWeightedRoute [("a", 1), ("b", 1)]).weighted_clusters =
      WeightedClustersActionName
        (UpdateWeightedClusterIndexMap [] [mkWeightedRoute [("a", 1), ("b", 1)]])
        (mkWeightedRoute [("a", 1), ("b", 1)]).weighted_clusters := by
  refine ⟨WF_nil, rfl, List.mem_cons_self _ _, by decide, ?_⟩
  exact c1_idempotent_naming [] [mkWeightedRoute [("a", 1), ("b", 1)]]
    [mkWeightedRoute [("a", 1), ("b", 1)]] WF_nil rfl
    (mkWeightedRoute [("a", 1), ("b", 1)]) (List.mem_cons_self _ _) (by decide)

theorem WF_singleton (k : String) (info : ClusterNamesInfo)
    (hi : SortedMap info.cluster_weights_map) : WF [(k, info)] := by
  constructor
  · exact List.pairwise_singleton _ _
  · intro N info' h
    by_cases hN : N = k
    · simp [mapFind, hN] at h
      rw [← h]
      exact hi
    · simp [mapFind, hN] at h

/-- C2 counterexample: the old table holds, in bucket `x_y`, action A
(`x_10_y_90`, index 0) together with another leftover (`x_100_y_900`,
index 1) whose weights-key sorts first.  The update drops both and requests
exactly one new action B over the same cluster set (`x_50_y_50`).  The
reuse pass hands B the lexicographically smallest leftover's index 1 — not
A's former index 0 — so the claim as stated is false. -/
theorem c2_reuse_counterexample :
    mapFind [("x_y", (⟨2, [("x_100_y_900", 1), ("x_10_y_90", 0)]⟩ : ClusterNamesInfo))]
      "x_y" = some ⟨2, [("x_100_y_900", 1), ("x_10_y_90", 0)]⟩ ∧
    mapFind (⟨2, [("x_100_y_900", 1), ("x_10_y_90", 0)]⟩ :
      ClusterNamesInfo).cluster_weights_map "x_10_y_90" = some 0 ∧
    actionsToProcess [mkWeightedRoute [("x", 50), ("y", 50)]] = [("x_50_y_50", "x_y")] ∧
    WeightedClustersActionName
        (UpdateWeightedClusterIndexMap
          [("x_y", (⟨2, [("x_100_y_900", 1), ("x_10_y_90", 0)]⟩ : ClusterNamesInfo))]
          [mkWeightedRoute [("x", 50), ("y", 50)]])
        (mkWeightedRoute [("x", 50), ("y", 50)]).weighted_clusters = some "x_y_1" ∧
    ("x_y_1" : String) ≠ "x_y_0" := by
  refine ⟨by decide, by decide, by decide, by decide, by decide⟩

/-- C2 (amended): if the table's bucket for cluster set `S` has action A as
its lexicographically smallest (for instance its only) remaining entry, and
the next update drops everything in the bucket and requests exactly one new
action B over `S` with weights not present in the bucket, then B is assigned
the smallest remaining entry's index — A's former index — and the bucket's
`next_index` is unchanged. -/
theorem c2_amended (m : WeightedClusterIndexMap) (routes : List RdsRoute)
    (N : String) (info : ClusterNamesInfo) (wA : String) (iA : Nat)
    (rest : List (String × Nat)) (wB : String)
    (hm : WF m)
    (hfind : mapFind m N = some info)
    (hhead : info.cluster_weights_map = (wA, iA) :: rest)
    (hact : actionsToProcess routes = [(wB, N)])
    (hnew : mapFind info.cluster_weights_map wB = none) :
    lookup2 (UpdateWeightedClusterIndexMap m routes) N wB = some iA ∧
    (mapFind (UpdateWeightedClusterIndexMap m routes) N).map
      (fun i => i.next_index) = some info.next_index ∧
    ∀ p ∈ rest, strLt wA p.1 = true := by
  have hsorted : SortedMap info.cluster_weights_map := hm.2 N info hfind
  have h1 : (actionsToProcess routes).foldl pass1Step ⟨[], m, []⟩ =
      ⟨[(N, ⟨info.next_index, []⟩)], m, [(wB, N)]⟩ := by
    rw [hact]
    simp [pass1Step, hfind, hnew, mapInsert, mapFind]
  have h2 : UpdateWeightedClusterIndexMap m routes =
      [(N, ⟨info.next_index, [(wB, iA)]⟩)] := by
    rw [upd_eq_fold, h1]
    simp [pass2Step, mapFind, hfind, hhead, mapInsert]
  refine ⟨?_, ?_, ?_⟩
  · rw [h2]
    simp [lookup2, mapFind]
  · rw [h2]
    simp [mapFind]
  · intro p hp
    have hpw := hsorted
    rw [hhead, SortedMap, List.pairwise_cons] at hpw
    exact hpw.1 p hp

theorem c2_amended_witness :
    lookup2 (UpdateWeightedClusterIndexMap
        [("x_y", (⟨1, [("x_10_y_90", 0)]⟩ : ClusterNamesInfo))]
        [mkWeightedRoute [("x", 50), ("y", 50)]]) "x_y" "x_50_y_50" = some 0 ∧
    (mapFind (UpdateWeightedClusterIndexMap
        [("x_y", (⟨1, [("x_10_y_90", 0)]⟩ : ClusterNamesInfo))]
        [mkWeightedRoute [("x", 50), ("y", 50)]]) "x_y").map
      (fun i => i.next_index) = some 1 := by
  have h := c2_amended
    [("x_y", (⟨1, [("x_10_y_90", 0)]⟩ : ClusterNamesInfo))]
    [mkWeightedRoute [("x", 50), ("y", 50)]]
    "x_y" ⟨1, [("x_10_y_90", 0)]⟩ "x_10_y_90" 0 [] "x_50_y_50"
    (WF_singleton _ _ (List.pairwise_singleton _ _))
    (by decide) rfl (by decide) (by decide)
  exact ⟨h.1, h.2.1⟩

/-- C3: the reuse pass is deterministic.  (1) The requested actions are
iterated in strictly increasing `cluster_weights_key` order (they sit in a
`std::map`).  (2) One reuse-pass step on an action whose bucket still has
leftover entries — in particular more than one — assigns it the index of the
bucket's first entry, which (the bucket being a sorted `std::map`) is the
lexicographically smallest remaining weights-key.  The whole assignment is a
pure function of the old table and the update content. -/
theorem c3_deterministic_tie_break :
    (∀ routes : List RdsRoute, (actionsToProcess routes).Pairwise keyLt) ∧
    (∀ (s : WeightedClusterIndexMap × WeightedClusterIndexMap) (w N w0 : String)
        (i0 : Nat) (rest : List (String × Nat)) (oldInfo : ClusterNamesInfo),
      mapFind s.2 N = some oldInfo →
      oldInfo.cluster_weights_map = (w0, i0) :: rest →
      rest ≠ [] →
      SortedMap oldInfo.cluster_weights_map →
      lookup2 (pass2Step s (w, N)).1 N w = some i0 ∧
      ∀ p ∈ rest, strLt w0 p.1 = true) := by
  constructor
  · intro routes
    exact actionsToProcess_sorted routes
  · intro s w N w0 i0 rest oldInfo hfind hhead _ hsorted
    constructor
    · simp only [pass2Step, hfind, Option.getD_some, hhead]
      rw [lookup2_mapInsert, if_pos rfl, mapFind_insert, if_pos rfl]
    · intro p hp
      rw [hhead, SortedMap, List.pairwise_cons] at hsorted
      exact hsorted.1 p hp

theorem c3_deterministic_tie_break_witness :
    lookup2 (pass2Step ([], [("n", (⟨2, [("a", 0), ("b", 1)]⟩ : ClusterNamesInfo))])
      ("c", "n")).1 "n" "c" = some 0 :=
  (c3_deterministic_tie_break.2 ([], [("n", (⟨2, [("a", 0), ("b", 1)]⟩ : ClusterNamesInfo))])
    "c" "n" "a" 0 [("b", 1)] (⟨2, [("a", 0), ("b", 1)]⟩ : ClusterNamesInfo)
    (by decide) rfl (by decide)
    (by
      refine List.pairwise_cons.mpr ⟨?_, List.pairwise_singleton _ _⟩
      intro p hp
      simp only [List.mem_singleton] at hp
      rw [hp]
      exact (by decide : strLt "a" "b" = true))).1

/-- A whole run of the resolver's allocator: the updates applied in order to
the initially empty table. -/
def applyUpdates (updates : List (List RdsRoute)) : WeightedClusterIndexMap :=
  updates.foldl UpdateWeightedClusterIndexMap []

theorem WFTable_nil : WFTable ([] : WeightedClusterIndexMap) := by
  refine ⟨WF_nil, ?_⟩
  intro N info h
  simp [mapFind] at h

theorem WFTable_foldl (us : List (List RdsRoute)) :
    ∀ m : WeightedClusterIndexMap, WFTable m →
      WFTable (us.foldl UpdateWeightedClusterIndexMap m) := by
  induction us with
  | nil => intro m hm; exact hm
  | cons u us ih =>
    intro m hm
    exact ih _ (upd_WFTable m u hm)

theorem WFTable_applyUpdates (us : List (List RdsRoute)) : WFTable (applyUpdates us) :=
  WFTable_foldl us [] WFTable_nil

def c4u1 : List RdsRoute := [mkWeightedRoute [("a", 1), ("b", 1)], mkWeightedRoute [("a", 2), ("b", 2)]]

def c4u2 : List RdsRoute := []

def c4u3 : List RdsRoute := [mkWeightedRoute [("a", 1), ("b", 1)]]

/-- C4 counterexample: after update `c4u1` the bucket `a_b` exists with
`next_index = 2`; in update `c4u2` it is garbage-collected; update `c4u3`
recreates it from scratch with `next_index = 1`.  Between an update in which
the bucket is present (the first) and the next update in which it is present
(the third), `next_index` decreased from 2 to 1, so the claim as stated is
false. -/
theorem c4_invariants_counterexample :
    (mapFind (applyUpdates [c4u1]) "a_b").map (fun i => i.next_index) = some 2 ∧
    mapFind (applyUpdates [c4u1, c4u2]) "a_b" = none ∧
    (mapFind (applyUpdates [c4u1, c4u2, c4u3]) "a_b").map (fun i => i.next_index) = some 1 ∧
    ¬(2 ≤ 1) := by
  refine ⟨by decide, by decide, by decide, by decide⟩

/-- C4 (amended): for every sequence of updates applied from the empty table,
after each update the indices of the live `weights_key` entries within each
bucket are pairwise distinct; and a bucket's `next_index` never decreases
from one update to the immediately following update when the bucket is
present in both resulting tables.  (After a garbage-collection gap the bucket
is rebuilt and `next_index` restarts, as the counterexample shows.) -/
theorem c4_invariants_amended (us : List (List RdsRoute)) :
    (∀ N info, mapFind (applyUpdates us) N = some info → (valsOf info).Nodup) ∧
    (∀ (u : List RdsRoute) (N : String) (info info' : ClusterNamesInfo),
      mapFind (applyUpdates us) N = some info →
      mapFind (applyUpdates (us ++ [u])) N = some info' →
      info.next_index ≤ info'.next_index) := by
  have hwft : WFTable (applyUpdates us) := WFTable_applyUpdates us
  constructor
  · intro N info h
    exact (hwft.2 N info h).1
  · intro u N info info' h h'
    have happ : applyUpdates (us ++ [u]) =
        UpdateWeightedClusterIndexMap (applyUpdates us) u := by
      rw [applyUpdates, applyUpdates, List.foldl_append]
      rfl
    rw [happ] at h'
    have hb : bucketNextD (applyUpdates us) N = info.next_index := by
      simp [bucketNextD, h]
    rw [← hb]
    exact upd_next_ge (applyUpdates us) u N info' hwft.1 h'

theorem c4_invariants_amended_witness :
    mapFind (applyUpdates [c4u1]) "a_b" =
      some ⟨2, [("a_1_b_1", 0), ("a_2_b_2", 1)]⟩ ∧
    (valsOf (⟨2, [("a_1_b_1", 0), ("a_2_b_2", 1)]⟩ : ClusterNamesInfo)).Nodup ∧
    mapFind (applyUpdates ([c4u1] ++ [c4u3])) "a_b" =
      some ⟨2, [("a_1_b_1", 0)]⟩ ∧
    (2 : Nat) ≤ 2 := by
  refine ⟨by decide, ?_, by decide, ?_⟩
  · exact (c4_invariants_amended [c4u1]).1 "a_b" ⟨2, [("a_1_b_1", 0), ("a_2_b_2", 1)]⟩
      (by decide)
  · exact (c4_invariants_amended [c4u1]).2 c4u3 "a_b"
      ⟨2, [("a_1_b_1", 0), ("a_2_b_2", 1)]⟩ ⟨2, [("a_1_b_1", 0)]⟩
      (by decide) (by decide)

/-- `CreateServiceConfigActionCluster`: the `cds:`-keyed action definition for
one cluster.  (Literal braces are written with their escapes.) -/
def CreateServiceConfigActionCluster (cluster_name : String) : String :=
  "      \"cds:" ++ cluster_name ++ "\":\x7b\n        \"childPolicy\":[ \x7b\n          \"cds_experimental\":\x7b\n            \"cluster\": \"" ++ cluster_name ++ "\"\n          \x7d\n        \x7d ]\n       \x7d"

/-- The `switch (header.type)` of `CreateServiceConfigRoute`: the text of one
header matcher.  The `default: break;` branch leaves `header_matcher` empty,
so an unrecognized tag emits no matcher text at all. -/
def headerMatcherText (header : HeaderMatcher) : String :=
  match header.type with
  | HeaderMatcherType.EXACT =>
    "             \"exact_match\": \"" ++ header.string_matcher ++ "\""
  | HeaderMatcherType.REGEX =>
    "             \"regex_match\": \"" ++ header.regex_pattern ++ "\""
  | HeaderMatcherType.RANGE =>
    "             \"range_match\":\x7b\n              \"start\":" ++ toString header.range_start ++ ",\n              \"end\":" ++ toString header.range_end ++ "\n             \x7d"
  | HeaderMatcherType.PRESENT =>
    "             \"present_match\": " ++ (if header.present_match then "true" else "false")
  | HeaderMatcherType.PREFIX_K =>
    "             \"prefix_match\": \"" ++ header.string_matcher ++ "\""
  | HeaderMatcherType.SUFFIX =>
    "             \"suffix_match\": \"" ++ header.string_matcher ++ "\""
  | HeaderMatcherType.UNKNOWN => ""

/-- One entry of the `headers` vector in `CreateServiceConfigRoute`. -/
def headerText (header : HeaderMatcher) : String :=
  String.intercalate ""
    (["           \x7b \n             \"name\": \"" ++ header.name ++ "\",\n",
      headerMatcherText header] ++
     (if header.invert_match then [",\n             \"invert_match\": true"] else []) ++
     ["\n           \x7d"])

/-- The `switch` on the path matcher type in `CreateServiceConfigRoute`. -/
def pathMatchText (pm : PathMatcher) : String :=
  match pm.type with
  | PathMatcherType.PREFIX_K => "\"prefix\": \"" ++ pm.string_matcher ++ "\",\n"
  | PathMatcherType.PATH => "\"path\": \"" ++ pm.string_matcher ++ "\",\n"
  | PathMatcherType.REGEX => "\"regex\": \"" ++ pm.regex_pattern ++ "\",\n"

/-- `CreateServiceConfigRoute`: the route entry referencing `action_name`. -/
def CreateServiceConfigRoute (action_name : String) (route : RdsRoute) : String :=
  let headers := route.matchers.header_matchers.map headerText
  let headers_service_config : List String :=
    if headers.isEmpty then []
    else ["\"headers\":[\n", String.intercalate "," headers, "           ],\n"]
  "      \x7b \n           " ++ pathMatchText route.matchers.path_matcher ++
    "           " ++ String.intercalate "" headers_service_config ++
    "           " ++
    (match route.matchers.fraction_per_million with
     | some n => "\"match_fraction\":" ++ toString n ++ ",\n"
     | none => "") ++
    "           \"action\": \"" ++ action_name ++ "\"\n      \x7d"

/-- `CreateServiceConfigActionWeightedCluster`: the `weighted:`-keyed action
definition for one weighted cluster set. -/
def CreateServiceConfigActionWeightedCluster (name : String)
    (clusters : List ClusterWeight) : String :=
  let weighted_targets := clusters.map (fun cw =>
    "              \"" ++ cw.name ++ "\":\x7b\n                \"weight\":" ++ toString cw.weight ++ ",\n                \"childPolicy\":[ \x7b\n                  \"cds_experimental\":\x7b\n                    \"cluster\": \"" ++ cw.name ++ "\"\n                  \x7d\n                \x7d ]\n               \x7d")
  "      \"weighted:" ++ name ++ "\":\x7b\n        \"childPolicy\":[ \x7b\n          \"weighted_target_experimental\":\x7b\n            \"targets\":\x7b\n" ++
    String.intercalate ",\n" weighted_targets ++
    "            \x7d\n          \x7d\n        \x7d ]\n       \x7d"

/-- The per-route action name in `CreateServiceConfig`'s loop
(`route.weighted_clusters.empty() ? route.cluster_name :
WeightedClustersActionName(...)`); `none` models the aborting
`GPR_ASSERT` inside `WeightedClustersActionName`. -/
def routeActionNameOpt (M : WeightedClusterIndexMap) (route : RdsRoute) : Option String :=
  if route.weighted_clusters.isEmpty then some route.cluster_name
  else WeightedClustersActionName M route.weighted_clusters

/-- The loop of `CreateServiceConfig`: accumulates `actions_vector` (one
definition per first occurrence of an action name, deduplicated through
`actions_set`, which is keyed by the *unprefixed* name) and `route_table`
(one kind-prefixed entry per route, in order). -/
def CreateServiceConfigCore (M : WeightedClusterIndexMap) :
    List RdsRoute → List String → List String → List String →
    Option (List String × List String)
  | [], actions_vector, route_table, _ => some (actions_vector, route_table)
  | route :: rest, actions_vector, route_table, actions_set =>
    match routeActionNameOpt M route with
    | none => none
    | some action_name =>
      let st :=
        if action_name ∈ actions_set then (actions_vector, actions_set)
        else (actions_vector ++
            [if route.weighted_clusters.isEmpty then
               CreateServiceConfigActionCluster action_name
             else
               CreateServiceConfigActionWeightedCluster action_name
                 route.weighted_clusters],
          actions_set ++ [action_name])
      CreateServiceConfigCore M rest st.1
        (route_table ++
          [CreateServiceConfigRoute
            ((if route.weighted_clusters.isEmpty then "cds" else "weighted") ++ ":" ++
              action_name) route])
        st.2

/-- `XdsResolver::CreateServiceConfig`: update the index map, compile actions
and routes, and assemble the service-config document text.  The result is the
mutated map plus the document (`none` when a `GPR_ASSERT` would abort; the
parse by the external `ServiceConfig::Create` is the caller's concern). -/
def CreateServiceConfig (m : WeightedClusterIndexMap) (routes : List RdsRoute) :
    WeightedClusterIndexMap × Option String :=
  let M := UpdateWeightedClusterIndexMap m routes
  match CreateServiceConfigCore M routes [] [] [] with
  | none => (M, none)
  | some (actions_vector, route_table) =>
    (M, some ("\x7b\n  \"loadBalancingConfig\":[\n    \x7b \"xds_routing_experimental\":\x7b\n      \"actions\":\x7b\n" ++
      String.intercalate ",\n" actions_vector ++
      "    \x7d,\n      \"routes\":[\n" ++
      String.intercalate ",\n" route_table ++
      "    ]\n    \x7d \x7d\n  ]\n\x7d"))

/-- A header matcher whose tag is outside the recognized enumerators. -/
def c5_unknown_header : HeaderMatcher :=
  { name := "h", type := HeaderMatcherType.UNKNOWN, string_matcher := "v",
    regex_pattern := "", range_start := 0, range_end := 0,
    present_match := false, invert_match := false }

/-- A route carrying the unrecognized header matcher. -/
def c5_route : RdsRoute :=
  { matchers :=
      { path_matcher := { type := PathMatcherType.PREFIX_K, string_matcher := "/svc",
                          regex_pattern := "" },
        header_matchers := [c5_unknown_header],
        fraction_per_million := none },
    cluster_name := "c", weighted_clusters := [] }

/-- C5: the claim is right and the code is wrong.  For a route whose header
matcher carries an unrecognized tag, the compiler's `switch` falls into
`default: break;`, leaving the matcher text empty: the route is emitted with
the matcher silently dropped (the header entry keeps only its name), and the
compilation loop returns a document rather than any structural error.  The
emitted route text, evaluated, shows the dropped matcher. -/
theorem c5_unrecognized_matcher_silently_skipped :
    headerMatcherText c5_unknown_header = "" ∧
    CreateServiceConfigCore (UpdateWeightedClusterIndexMap [] [c5_route])
      [c5_route] [] [] [] =
      some ([CreateServiceConfigActionCluster "c"],
            [CreateServiceConfigRoute "cds:c" c5_route]) ∧
    CreateServiceConfigRoute "cds:c" c5_route =
      "      \x7b \n           \"prefix\": \"/svc\",\n           \"headers\":[\n           \x7b \n             \"name\": \"h\",\n\n           \x7d           ],\n                      \"action\": \"cds:c\"\n      \x7d" := by
  refine ⟨rfl, by decide, by decide⟩

/-- The single-cluster route whose literal cluster name collides with the
allocator-assigned name of the weighted route below. -/
def c6_r1 : RdsRoute :=
  { matchers :=
      { path_matcher := { type := PathMatcherType.PREFIX_K, string_matcher := "/a",
                          regex_pattern := "" },
        header_matchers := [], fraction_per_million := none },
    cluster_name := "c1_c2_0", weighted_clusters := [] }

/-- The weighted route; the allocator names its action `c1_c2_0`. -/
def c6_r2 : RdsRoute :=
  { matchers :=
      { path_matcher := { type := PathMatcherType.PREFIX_K, string_matcher := "/b",
                          regex_pattern := "" },
        header_matchers := [], fraction_per_million := none },
    cluster_name := "",
    weighted_clusters := [{ name := "c1", weight := 50 }, { name := "c2", weight := 50 }] }

def c6_routes : List RdsRoute := [c6_r1, c6_r2]

def c6_M : WeightedClusterIndexMap := UpdateWeightedClusterIndexMap [] c6_routes

/-- C6 counterexample: the literal cluster name `c1_c2_0` of the first route
coincides with the allocator-assigned name of the second (weighted) route.
The compiled document's action list contains only the first route's `cds`
action definition — the weighted action definition is *not* in the output,
because `actions_set` deduplicates by the unprefixed action name.  So the
claim that the output still contains both action definitions is false. -/
theorem c6_route_emission_counterexample :
    c6_r1.cluster_name = "c1_c2_0" ∧
    WeightedClustersActionName c6_M c6_r2.weighted_clusters = some "c1_c2_0" ∧
    CreateServiceConfigCore c6_M c6_routes [] [] [] =
      some ([CreateServiceConfigActionCluster "c1_c2_0"],
            [CreateServiceConfigRoute "cds:c1_c2_0" c6_r1,
             CreateServiceConfigRoute "weighted:c1_c2_0" c6_r2]) ∧
    CreateServiceConfigActionWeightedCluster "c1_c2_0" c6_r2.weighted_clusters ∉
      [CreateServiceConfigActionCluster "c1_c2_0"] := by
  refine ⟨rfl, by decide, by decide, by decide⟩

/-- C6 (amended): `CreateServiceConfig` emits one route entry per input route,
in input order, each referencing its action through the kind-prefixed
composed key (`cds:`/`weighted:`); action *definitions*, however, are
deduplicated by the unprefixed action name, so when a literal cluster name
coincides with an allocator-assigned weighted-action name only the
first-encountered definition is emitted (as at the concrete collision input
`c6_routes`). -/
theorem c6_route_emission_amended :
    (∀ (M : WeightedClusterIndexMap) (routes : List RdsRoute)
        (av rt aset : List String),
      (∀ r ∈ routes, (routeActionNameOpt M r).isSome = true) →
      ∃ av2, CreateServiceConfigCore M routes av rt aset =
        some (av2, rt ++ routes.map (fun r =>
          CreateServiceConfigRoute
            ((if r.weighted_clusters.isEmpty then "cds" else "weighted") ++ ":" ++
              (routeActionNameOpt M r).getD "") r))) ∧
    CreateServiceConfigCore c6_M c6_routes [] [] [] =
      some ([CreateServiceConfigActionCluster "c1_c2_0"],
            [CreateServiceConfigRoute "cds:c1_c2_0" c6_r1,
             CreateServiceConfigRoute "weighted:c1_c2_0" c6_r2]) := by
  constructor
  · intro M routes
    induction routes with
    | nil => intro av rt aset _; exact ⟨av, by simp [CreateServiceConfigCore]⟩
    | cons r rs ih =>
      intro av rt aset hall
      have hr := hall r (List.mem_cons_self _ _)
      cases hname : routeActionNameOpt M r with
      | none => rw [hname] at hr; simp at hr
      | some action_name =>
        obtain ⟨av2, hav2⟩ := ih _ _ _
          (fun r' hr' => hall r' (List.mem_cons_of_mem _ hr'))
        refine ⟨av2, ?_⟩
        simp only [CreateServiceConfigCore, hname]
        rw [hav2, List.map_cons, hname]
        simp [List.append_assoc]
  · decide

theorem c6_route_emission_amended_witness :
    CreateServiceConfigCore c6_M c6_routes [] [] [] =
      some ([CreateServiceConfigActionCluster "c1_c2_0"],
        [] ++ c6_routes.map (fun r =>
          CreateServiceConfigRoute
            ((if r.weighted_clusters.isEmpty then "cds" else "weighted") ++ ":" ++
              (routeActionNameOpt c6_M r).getD "") r)) := by
  obtain ⟨av2, hav⟩ := c6_route_emission_amended.1 c6_M c6_routes [] [] [] (by decide)
  have hc : CreateServiceConfigCore c6_M c6_routes [] [] [] =
      some ([CreateServiceConfigActionCluster "c1_c2_0"],
            [CreateServiceConfigRoute "cds:c1_c2_0" c6_r1,
             CreateServiceConfigRoute "weighted:c1_c2_0" c6_r2]) := by decide
  have hj := Option.some.inj (hc.symm.trans hav)
  have hav2 : av2 = [CreateServiceConfigActionCluster "c1_c2_0"] :=
    (congrArg Prod.fst hj).symm
  rw [hav, hav2]

/-- The update that makes the `GPR_ASSERT`s in `WeightedClustersActionName`
fire: two weighted routes over different cluster sets (`{a, b}` and the
single cluster `a_1_b`) that derive the *same* `cluster_weights_key`
`a_1_b_2` but different `cluster_names_key`s (`a_b` vs `a_1_b`). -/
def c10_routes : List RdsRoute :=
  [mkWeightedRoute [("a", 1), ("b", 2)], mkWeightedRoute [("a_1_b", 2)]]

/-- C10: the claim (the asserts are unreachable) matches the code's own
intent — `GPR_ASSERT` documents that the lookups must succeed — but the code
violates it.  `actions_to_process` is keyed by `cluster_weights_key` alone
with first-occurrence-wins, so the second route's action is dropped, the
table gets no `a_1_b` bucket, and `WeightedClustersActionName` fails its
asserted lookup for that route (modelled as `none`), aborting
`CreateServiceConfig` (no document is produced). -/
theorem c10_action_name_assert_reachable :
    GetWeightedClustersKey (mkWeightedRoute [("a", 1), ("b", 2)]).weighted_clusters =
      ⟨"a_b", "a_1_b_2"⟩ ∧
    GetWeightedClustersKey (mkWeightedRoute [("a_1_b", 2)]).weighted_clusters =
      ⟨"a_1_b", "a_1_b_2"⟩ ∧
    WeightedClustersActionName (UpdateWeightedClusterIndexMap [] c10_routes)
      (mkWeightedRoute [("a_1_b", 2)]).weighted_clusters = none ∧
    (CreateServiceConfig [] c10_routes).2 = none := by
  refine ⟨by decide, by decide, by decide, by decide⟩

/-- Channel arguments by provenance: the resolver's own `args_` entries, the
discovery client's contribution (`xds_client_->MakeChannelArg()`), and the
config selector's contribution. -/
inductive ChannelArg where
  | base : Nat → ChannelArg
  | xdsClientArg : ChannelArg
  | configSelectorArg : ChannelArg
deriving DecidableEq

/-- `grpc_channel_args_copy_and_add`: the original args plus the new ones. -/
def grpc_channel_args_copy_and_add (args new_args : List ChannelArg) : List ChannelArg :=
  args ++ new_args

/-- The resolver state the watcher callbacks read and write: the base channel
args, whether `xds_client_` is non-null (it is reset on shutdown), and the
weighted-cluster action-name cache. -/
structure XdsResolverState where
  args_ : List ChannelArg
  xds_client_alive : Bool
  weighted_cluster_index_map_ : WeightedClusterIndexMap
deriving DecidableEq

/-- `Resolver::Result` as this file populates it: the service config (its
json text), the error, and the channel args. -/
structure ResolverResult where
  service_config : Option String
  service_config_error : Option String
  args : List ChannelArg
deriving DecidableEq

/-- `XdsResolver::ShutdownLocked`: resets `xds_client_`. -/
def ShutdownLocked (st : XdsResolverState) : XdsResolverState :=
  { st with xds_client_alive := false }

/-- `ListenerWatcher::OnError`: bail out if shut down, else deliver an
error-only result whose args are the base args plus the xds client's
channel arg. -/
def OnErrorCB (st : XdsResolverState) (error : String) :
    XdsResolverState × Option ResolverResult :=
  if st.xds_client_alive = false then (st, none)
  else
    (st, some { service_config := none, service_config_error := some error,
                args := grpc_channel_args_copy_and_add st.args_ [ChannelArg.xdsClientArg] })

/-- `ListenerWatcher::OnListenerChanged`: bail out if shut down; run
`CreateServiceConfig` (which updates the action-name cache first); on a
document-construction error (`parse_error`, standing for the external
`ServiceConfig::Create`) fall through to `OnError`; otherwise deliver the
config with the base args plus the xds-client and config-selector args.
A `none` document stands for the aborting `GPR_ASSERT`. -/
def OnListenerChangedCB (parse_error : String → Option String)
    (st : XdsResolverState) (routes : List RdsRoute) :
    XdsResolverState × Option ResolverResult :=
  if st.xds_client_alive = false then (st, none)
  else
    let r := CreateServiceConfig st.weighted_cluster_index_map_ routes
    let st' := { st with weighted_cluster_index_map_ := r.1 }
    match r.2 with
    | none => (st', none)
    | some json =>
      match parse_error json with
      | some err => OnErrorCB st' err
      | none =>
        (st', some { service_config := some json, service_config_error := none,
                     args := grpc_channel_args_copy_and_add st.args_
                       [ChannelArg.xdsClientArg, ChannelArg.configSelectorArg] })

/-- `ListenerWatcher::OnResourceDoesNotExist`: bail out if shut down, else
deliver the empty-object service config (`ServiceConfig::Create("{}")`,
whose success the code `GPR_ASSERT`s) with *copied base args only*. -/
def OnResourceDoesNotExistCB (st : XdsResolverState) :
    XdsResolverState × Option ResolverResult :=
  if st.xds_client_alive = false then (st, none)
  else
    (st, some { service_config := some "\x7b\x7d", service_config_error := none,
                args := st.args_ })

/-- The routing content of a parsed service config: its actions and routes. -/
structure RoutingDoc where
  actions : List String
  routes : List String
deriving DecidableEq

/-- Modelled from the spec: `ServiceConfig::Create` lives outside this
repository (this file only calls it).  Per the spec, the empty-object
document is "an explicit, valid `no routes` policy": it parses successfully
into the empty routing document — zero actions and zero routes.  Only that
input is modelled here. -/
def serviceConfigRoutingDoc (json : String) : Option RoutingDoc :=
  if json = "\x7b\x7d" then some { actions := [], routes := [] } else none

def c7_state : XdsResolverState :=
  { args_ := [ChannelArg.base 0], xds_client_alive := true,
    weighted_cluster_index_map_ := [] }

/-- C7 counterexample: with base args `[base 0]`, a live resolver's
`OnResourceDoesNotExist` delivers a result whose args are the bare copied
base args — not the base args merged with the discovery client's channel-arg
contribution — so the claim is false for that callback. -/
theorem c7_result_args_counterexample :
    (OnResourceDoesNotExistCB c7_state).2 =
      some { service_config := some "\x7b\x7d", service_config_error := none,
             args := [ChannelArg.base 0] } ∧
    ([ChannelArg.base 0] : List ChannelArg) ≠
      grpc_channel_args_copy_and_add [ChannelArg.base 0] [ChannelArg.xdsClientArg] := by
  refine ⟨by decide, by decide⟩

/-- C7 (amended): on a live resolver, `OnListenerChanged`'s success path
delivers the base args plus *both* the xds-client and the config-selector
contributions; `OnError` delivers the base args plus the xds-client
contribution; and `OnResourceDoesNotExist` delivers only the copied base
args, with no discovery-client contribution. -/
theorem c7_result_args_amended (parse_error : String → Option String)
    (st : XdsResolverState) (routes : List RdsRoute) (err json : String)
    (halive : st.xds_client_alive = true) :
    OnErrorCB st err =
      (st, some { service_config := none, service_config_error := some err,
                  args := st.args_ ++ [ChannelArg.xdsClientArg] }) ∧
    OnResourceDoesNotExistCB st =
      (st, some { service_config := some "\x7b\x7d", service_config_error := none,
                  args := st.args_ }) ∧
    ((CreateServiceConfig st.weighted_cluster_index_map_ routes).2 = some json →
      parse_error json = none →
      OnListenerChangedCB parse_error st routes =
        ({ st with weighted_cluster_index_map_ :=
             (CreateServiceConfig st.weighted_cluster_index_map_ routes).1 },
         some { service_config := some json, service_config_error := none,
                args := st.args_ ++ [ChannelArg.xdsClientArg,
                  ChannelArg.configSelectorArg] })) := by
  refine ⟨?_, ?_, ?_⟩
  · simp [OnErrorCB, halive, grpc_channel_args_copy_and_add]
  · simp [OnResourceDoesNotExistCB, halive]
  · intro hjson hparse
    simp [OnListenerChangedCB, halive, hjson, hparse, grpc_channel_args_copy_and_add]

theorem c7_result_args_amended_witness :
    OnErrorCB c7_state "boom" =
      (c7_state, some { service_config := none, service_config_error := some "boom",
                        args := [ChannelArg.base 0] ++ [ChannelArg.xdsClientArg] }) ∧
    OnListenerChangedCB (fun _ => none) c7_state [] =
      ({ c7_state with weighted_cluster_index_map_ :=
           (CreateServiceConfig c7_state.weighted_cluster_index_map_ []).1 },
       some { service_config := some "\x7b\n  \"loadBalancingConfig\":[\n    \x7b \"xds_routing_experimental\":\x7b\n      \"actions\":\x7b\n    \x7d,\n      \"routes\":[\n    ]\n    \x7d \x7d\n  ]\n\x7d",
              service_config_error := none,
              args := [ChannelArg.base 0] ++ [ChannelArg.xdsClientArg,
                ChannelArg.configSelectorArg] }) := by
  have h := c7_result_args_amended (fun _ => none) c7_state []
    "boom" "\x7b\n  \"loadBalancingConfig\":[\n    \x7b \"xds_routing_experimental\":\x7b\n      \"actions\":\x7b\n    \x7d,\n      \"routes\":[\n    ]\n    \x7d \x7d\n  ]\n\x7d" rfl
  exact ⟨h.1, h.2.2 (by decide) rfl⟩

def c8_state : XdsResolverState :=
  { args_ := [ChannelArg.base 7], xds_client_alive := true,
    weighted_cluster_index_map_ := [] }

/-- C8: when the resolver is live, `OnResourceDoesNotExist` delivers a result
carrying the empty-object service config and no error; by the spec-modelled
external parse, that document is the explicit empty routing document — zero
actions and zero routes. -/
theorem c8_resource_not_exist_empty_config (st : XdsResolverState)
    (halive : st.xds_client_alive = true) :
    (OnResourceDoesNotExistCB st).2 =
      some { service_config := some "\x7b\x7d", service_config_error := none,
             args := st.args_ } ∧
    serviceConfigRoutingDoc "\x7b\x7d" = some { actions := [], routes := [] } := by
  constructor
  · simp [OnResourceDoesNotExistCB, halive]
  · rfl

theorem c8_resource_not_exist_empty_config_witness :
    (OnResourceDoesNotExistCB c8_state).2 =
      some { service_config := some "\x7b\x7d", service_config_error := none,
             args := [ChannelArg.base 7] } ∧
    serviceConfigRoutingDoc "\x7b\x7d" = some { actions := [], routes := [] } :=
  c8_resource_not_exist_empty_config c8_state rfl

/-- C9: after `ShutdownLocked` has reset the xds client, every watcher
callback — `OnListenerChanged`, `OnError`, `OnResourceDoesNotExist` — hits
the liveness check, returns without delivering any result, and leaves the
resolver state untouched. -/
theorem c9_post_shutdown_silence (parse_error : String → Option String)
    (st : XdsResolverState) (routes : List RdsRoute) (err : String) :
    OnListenerChangedCB parse_error (ShutdownLocked st) routes =
      (ShutdownLocked st, none) ∧
    OnErrorCB (ShutdownLocked st) err = (ShutdownLocked st, none) ∧
    OnResourceDoesNotExistCB (ShutdownLocked st) = (ShutdownLocked st, none) := by
  refine ⟨?_, ?_, ?_⟩
  · simp [OnListenerChangedCB, ShutdownLocked]
  · simp [OnErrorCB, ShutdownLocked]
  · simp [OnResourceDoesNotExistCB, ShutdownLocked]

end XdsResolver
